import Mathlib

/-!
Verification of the quran-ayah-lookup package core against its specification.

The Python source is shallowly embedded: strings are lists of Unicode scalar
values (`List Char`), Python `dict`s are insertion-ordered association lists,
floating point similarity scores are rationals, exceptions are `Option`/`Except`,
and the external rapidfuzz scoring functions are parameters of the embedded
search functions (so every theorem quantified over them covers the real
scorers).  Concrete model implementations of the rapidfuzz scorers, following
their documented algorithms, are provided for evaluating counterexamples and
witnesses on concrete inputs.
-/

set_option linter.unusedVariables false

/-- Python strings are sequences of Unicode scalar values. -/
abbrev Str := List Char

/-- Whitespace predicate used by Python `str.split()` / `str.strip()`
(the ASCII whitespace code points; these are the only whitespace code
points appearing anywhere in this development). -/
def isPySpace (c : Char) : Bool :=
  c = ' ' || c = '\t' || c = '\n' || c = '\r' || c.toNat = 11 || c.toNat = 12

/-- Python `str.strip()`: drop leading and trailing whitespace. -/
def pyStrip (s : Str) : Str :=
  ((s.dropWhile isPySpace).reverse.dropWhile isPySpace).reverse

/-- Accumulator worker for `splitWs`; `acc` holds the current chunk reversed. -/
def splitWsAux : Str → Str → List Str
  | [], acc => if acc = [] then [] else [acc.reverse]
  | c :: cs, acc =>
    if isPySpace c then
      if acc = [] then splitWsAux cs [] else acc.reverse :: splitWsAux cs []
    else splitWsAux cs (c :: acc)

/-- Python `str.split()` with no argument: maximal runs of non-whitespace
characters; empty chunks are discarded. -/
def splitWs (s : Str) : List Str := splitWsAux s []

/-- Python `" ".join(words)`. -/
def joinWords : List Str → Str
  | [] => []
  | [w] => w
  | w :: ws => w ++ ' ' :: joinWords ws

/-- The whitespace-collapse step `' '.join(text.split())` of the normalizer. -/
def collapse_ws (s : Str) : Str := joinWords (splitWs s)

/-- Code points of the `ARABIC_DIACRITICS` table in `text_utils.py`
(in source order, including the duplicated entry U+06E9). -/
def ARABIC_DIACRITICS : List Char :=
  ([0x64B, 0x64C, 0x64D, 0x64E, 0x64F, 0x650, 0x651, 0x652,
    0x653, 0x654, 0x655, 0x656, 0x657, 0x658, 0x659, 0x65A,
    0x65B, 0x65C, 0x65D, 0x65E, 0x65F,
    0x670, 0x6D6, 0x6D7, 0x6D8, 0x6D9, 0x6DA, 0x6DB, 0x6DC,
    0x6DF, 0x6E0, 0x6E1, 0x6E2, 0x6E3, 0x6E4, 0x6E5, 0x6E6,
    0x6E7, 0x6E8, 0x6E9, 0x6EA, 0x6EB, 0x6EC, 0x6ED,
    0x6E9,
    0x8F0, 0x8F1, 0x8F2, 0x8F3, 0x8F4, 0x8F5, 0x8F6, 0x8F7,
    0x8F8, 0x8F9, 0x8FA, 0x8FB, 0x8FC, 0x8FD, 0x8FE, 0x8FF] : List Nat).map Char.ofNat

/-- Code points of the `QURAN_SPECIAL_MARKS` table in `text_utils.py`. -/
def QURAN_SPECIAL_MARKS : List Char :=
  ([0x6DE, 0x60C, 0x61B, 0x61F, 0x640] : List Nat).map Char.ofNat

/-- Combined removal table, as in the source. -/
def ALL_DIACRITICS_AND_MARKS : List Char := ARABIC_DIACRITICS ++ QURAN_SPECIAL_MARKS

/-- Python `s.replace(m, '')` for a single character `m`. -/
def removeChar (m : Char) (s : Str) : Str := s.filter (fun c => c ≠ m)

/-- The loop `for mark in ALL_DIACRITICS_AND_MARKS: normalized = normalized.replace(mark, '')`. -/
def remove_all_marks (s : Str) : Str :=
  ALL_DIACRITICS_AND_MARKS.foldl (fun acc m => removeChar m acc) s

/-- Character class of the safety-net regex
`[ً-ٰٟۖ-ࣰۭ-ࣿ]`. -/
def inDiacriticRanges (c : Char) : Bool :=
  (0x64B ≤ c.toNat && c.toNat ≤ 0x65F) || c.toNat = 0x670 ||
  (0x6D6 ≤ c.toNat && c.toNat ≤ 0x6ED) || (0x8F0 ≤ c.toNat && c.toNat ≤ 0x8FF)

/-- The `re.sub(..., '', normalized)` sweep removing every character of the class. -/
def regex_sweep (s : Str) : Str := s.filter (fun c => !inDiacriticRanges c)

/-- Python `s.replace(a, b)` for single characters `a`, `b`. -/
def charReplace (a b : Char) (s : Str) : Str := s.map (fun c => if c = a then b else c)

/-- Arabic letter Waw (U+0648). -/
def wawChar : Char := Char.ofNat 0x648

/-- Arabic letter Alef (U+0627). -/
def alefChar : Char := Char.ofNat 0x627

/-- The three letter-folding replacements: Alif wasla (U+0671), Alif with
hamza above (U+0623) and Alif with hamza below (U+0625) all become plain
Alif (U+0627), applied in source order. -/
def fold_alif_variants (s : Str) : Str :=
  charReplace (Char.ofNat 0x625) alefChar
    (charReplace (Char.ofNat 0x623) alefChar
      (charReplace (Char.ofNat 0x671) alefChar s))

/-- Worker for `replace_waw_space`: scans left to right keeping a buffer of at
most two characters already read but not yet emitted; when the buffer plus the
next character spell out space-Waw-space the contraction is emitted and
scanning resumes after the consumed occurrence, exactly as Python `str.replace`
does (left-to-right, non-overlapping). -/
def rwsAux : Str → Str → Str
  | pending, [] => pending
  | pending, c :: cs =>
    match pending with
    | [p1, p2] =>
      if p1 = ' ' && p2 = wawChar && c = ' ' then ' ' :: wawChar :: rwsAux [] cs
      else p1 :: rwsAux [p2, c] cs
    | _ => rwsAux (pending ++ [c]) cs

/-- Python `s.replace(' و ', ' و')` from the normalizer. -/
def replace_waw_space (s : Str) : Str := rwsAux [] s

/-- Embedding of `normalize_arabic_text` from `text_utils.py`: remove the
tabled marks, sweep the regex character class, fold the Alif variants, apply
the Waw-space contraction, and collapse whitespace.  Empty (falsy) input is
returned unchanged. -/
def normalize_arabic_text (s : Str) : Str :=
  if s = [] then s
  else collapse_ws (replace_waw_space (fold_alif_variants (regex_sweep (remove_all_marks s))))

/-! Lemmas about `splitWs`, `joinWords` and `collapse_ws`. -/

theorem splitWsAux_word (w : Str) (hw : ∀ c ∈ w, isPySpace c = false) :
    ∀ rest acc, splitWsAux (w ++ rest) acc = splitWsAux rest (w.reverse ++ acc) := by
  induction w with
  | nil => intro rest acc; simp
  | cons c w' ih =>
    intro rest acc
    have hc : isPySpace c = false := hw c (List.mem_cons_self ..)
    have hw' : ∀ d ∈ w', isPySpace d = false := fun d hd => hw d (List.mem_cons_of_mem _ hd)
    have h1 : splitWsAux ((c :: w') ++ rest) acc = splitWsAux (w' ++ rest) (c :: acc) := by
      simp [splitWsAux, hc]
    rw [h1, ih hw' rest (c :: acc), List.reverse_cons, List.append_assoc, List.singleton_append]

theorem splitWs_join_of_good (ws : List Str)
    (h : ∀ w ∈ ws, w ≠ [] ∧ ∀ c ∈ w, isPySpace c = false) :
    splitWs (joinWords ws) = ws := by
  induction ws with
  | nil => rfl
  | cons w tail ih =>
    obtain ⟨hne, hns⟩ := h w (List.mem_cons_self ..)
    cases tail with
    | nil =>
      have h1 : joinWords [w] = w ++ [] := by simp [joinWords]
      show splitWsAux (joinWords [w]) [] = [w]
      rw [h1, splitWsAux_word w hns]
      simp [splitWsAux, hne]
    | cons w2 rest =>
      show splitWsAux (w ++ ' ' :: joinWords (w2 :: rest)) [] = w :: w2 :: rest
      rw [splitWsAux_word w hns]
      have hsp : isPySpace ' ' = true := by decide
      simp only [splitWsAux, hsp, if_true, List.append_nil, List.reverse_eq_nil_iff, hne,
        if_false, List.reverse_reverse]
      have := ih (fun x hx => h x (List.mem_cons_of_mem _ hx))
      simpa [splitWs] using this

theorem splitWsAux_tokens_good (s : Str) :
    ∀ acc, (∀ c ∈ acc, isPySpace c = false) →
      ∀ w ∈ splitWsAux s acc, w ≠ [] ∧ ∀ c ∈ w, isPySpace c = false := by
  induction s with
  | nil =>
    intro acc hacc w hw
    by_cases h : acc = []
    · subst h; simp [splitWsAux] at hw
    · simp only [splitWsAux, h, if_false, List.mem_singleton] at hw
      subst hw
      constructor
      · simpa using h
      · intro c hc; exact hacc c (by simpa using hc)
  | cons c cs ih =>
    intro acc hacc w hw
    simp only [splitWsAux] at hw
    by_cases hc : isPySpace c
    · rw [if_pos hc] at hw
      by_cases h : acc = []
      · rw [if_pos h] at hw
        exact ih [] (by simp) w hw
      · rw [if_neg h] at hw
        rcases List.mem_cons.mp hw with h1 | h2
        · subst h1
          exact ⟨by simpa using h, fun d hd => hacc d (by simpa using hd)⟩
        · exact ih [] (by simp) w h2
    · rw [if_neg hc] at hw
      refine ih (c :: acc) ?_ w hw
      intro d hd
      rcases List.mem_cons.mp hd with h1 | h2
      · subst h1; simpa using hc
      · exact hacc d h2

theorem splitWsAux_mem_subset (s : Str) :
    ∀ acc w, w ∈ splitWsAux s acc → ∀ c ∈ w, c ∈ acc ∨ c ∈ s := by
  induction s with
  | nil =>
    intro acc w hw c hc
    by_cases h : acc = []
    · subst h; simp [splitWsAux] at hw
    · simp only [splitWsAux, h, if_false, List.mem_singleton] at hw
      subst hw; exact Or.inl (by simpa using hc)
  | cons a cs ih =>
    intro acc w hw c hc
    simp only [splitWsAux] at hw
    by_cases ha : isPySpace a
    · rw [if_pos ha] at hw
      by_cases h : acc = []
      · rw [if_pos h] at hw
        rcases ih [] w hw c hc with h1 | h1
        · simp at h1
        · exact Or.inr (List.mem_cons_of_mem _ h1)
      · rw [if_neg h] at hw
        rcases List.mem_cons.mp hw with h1 | h2
        · subst h1; exact Or.inl (by simpa using hc)
        · rcases ih [] w h2 c hc with h1 | h1
          · simp at h1
          · exact Or.inr (List.mem_cons_of_mem _ h1)
    · rw [if_neg ha] at hw
      rcases ih (a :: acc) w hw c hc with h1 | h1
      · rcases List.mem_cons.mp h1 with h2 | h2
        · subst h2; exact Or.inr (List.mem_cons_self ..)
        · exact Or.inl h2
      · exact Or.inr (List.mem_cons_of_mem _ h1)

theorem joinWords_mem (ws : List Str) (c : Char) (hc : c ∈ joinWords ws) :
    c = ' ' ∨ ∃ w ∈ ws, c ∈ w := by
  induction ws with
  | nil => simp [joinWords] at hc
  | cons w tail ih =>
    cases tail with
    | nil =>
      simp only [joinWords] at hc
      exact Or.inr ⟨w, List.mem_cons_self .., hc⟩
    | cons w2 rest =>
      simp only [joinWords, List.mem_append, List.mem_cons] at hc
      rcases hc with h1 | h1 | h1
      · exact Or.inr ⟨w, List.mem_cons_self .., h1⟩
      · exact Or.inl h1
      · rcases ih h1 with h2 | ⟨w', hw', hcw⟩
        · exact Or.inl h2
        · exact Or.inr ⟨w', List.mem_cons_of_mem _ hw', hcw⟩

theorem collapse_ws_mem (s : Str) (c : Char) (hc : c ∈ collapse_ws s) :
    c = ' ' ∨ c ∈ s := by
  rcases joinWords_mem _ _ hc with h | ⟨w, hw, hcw⟩
  · exact Or.inl h
  · rcases splitWsAux_mem_subset s [] w hw c hcw with h | h
    · simp at h
    · exact Or.inr h

theorem collapse_ws_idem (s : Str) : collapse_ws (collapse_ws s) = collapse_ws s := by
  unfold collapse_ws
  have h : ∀ w ∈ splitWs s, w ≠ [] ∧ ∀ c ∈ w, isPySpace c = false :=
    splitWsAux_tokens_good s [] (by simp)
  rw [splitWs_join_of_good _ h]

/-! Lemmas about the Waw-space contraction. -/

theorem rwsAux_eq_of_no_occurrence (rest : Str) :
    ∀ pending, ¬ ([' ', wawChar, ' '] <:+: (pending ++ rest)) →
      rwsAux pending rest = pending ++ rest := by
  induction rest with
  | nil => intro pending h; simp [rwsAux]
  | cons c cs ih =>
    intro pending h
    match pending with
    | [p1, p2] =>
      by_cases hm : (p1 = ' ' && p2 = wawChar && c = ' ') = true
      · exfalso
        apply h
        simp only [Bool.and_eq_true, decide_eq_true_eq] at hm
        obtain ⟨⟨h1, h2⟩, h3⟩ := hm
        subst h1; subst h2; subst h3
        exact ⟨[], cs, by simp⟩
      · have h' : ¬ ([' ', wawChar, ' '] <:+: ([p2, c] ++ cs)) := by
          intro hc
          have h2 : ([p2, c] ++ cs) <:+: ([p1, p2] ++ c :: cs) := ⟨[p1], [], by simp⟩
          exact h (hc.trans h2)
        simp only [rwsAux, hm, if_false, ih [p2, c] h']
        simp
    | [] =>
      have h' : ¬ ([' ', wawChar, ' '] <:+: ([c] ++ cs)) := by simpa using h
      show rwsAux [c] cs = [] ++ c :: cs
      rw [ih [c] h']
      simp
    | [p1] =>
      have h' : ¬ ([' ', wawChar, ' '] <:+: ([p1, c] ++ cs)) := by simpa using h
      show rwsAux [p1, c] cs = [p1] ++ c :: cs
      rw [ih [p1, c] h']
      simp
    | p1 :: p2 :: p3 :: ps =>
      have h' : ¬ ([' ', wawChar, ' '] <:+: ((p1 :: p2 :: p3 :: ps) ++ [c] ++ cs)) := by
        simpa [List.append_assoc] using h
      show rwsAux ((p1 :: p2 :: p3 :: ps) ++ [c]) cs = (p1 :: p2 :: p3 :: ps) ++ c :: cs
      rw [ih ((p1 :: p2 :: p3 :: ps) ++ [c]) (by simpa [List.append_assoc] using h')]
      simp

theorem rwsAux_mem (rest : Str) :
    ∀ pending c, c ∈ rwsAux pending rest → c ∈ pending ∨ c ∈ rest := by
  induction rest with
  | nil => intro pending c hc; exact Or.inl (by simpa [rwsAux] using hc)
  | cons a cs ih =>
    intro pending c hc
    match pending with
    | [p1, p2] =>
      by_cases hm : (p1 = ' ' && p2 = wawChar && a = ' ') = true
      · simp only [rwsAux, hm, if_true] at hc
        simp only [Bool.and_eq_true, decide_eq_true_eq] at hm
        obtain ⟨⟨h1, h2⟩, h3⟩ := hm
        rcases List.mem_cons.mp hc with h4 | h4
        · subst h4; exact Or.inl (by rw [h1]; simp)
        rcases List.mem_cons.mp h4 with h5 | h5
        · subst h5; exact Or.inl (by rw [h2]; simp)
        · rcases ih [] c h5 with h6 | h6
          · simp at h6
          · exact Or.inr (List.mem_cons_of_mem _ h6)
      · simp only [rwsAux, hm, if_false] at hc
        rcases List.mem_cons.mp hc with h4 | h4
        · subst h4; exact Or.inl (by simp)
        · rcases ih [p2, a] c h4 with h5 | h5
          · rcases List.mem_cons.mp h5 with h6 | h6
            · exact Or.inl (by rw [h6]; simp)
            · simp only [List.mem_singleton] at h6
              exact Or.inr (by rw [h6]; simp)
          · exact Or.inr (List.mem_cons_of_mem _ h5)
    | [] =>
      have hc' : c ∈ rwsAux [a] cs := hc
      rcases ih [a] c hc' with h4 | h4
      · simp only [List.mem_singleton] at h4
        exact Or.inr (by rw [h4]; simp)
      · exact Or.inr (List.mem_cons_of_mem _ h4)
    | [p1] =>
      have hc' : c ∈ rwsAux [p1, a] cs := hc
      rcases ih [p1, a] c hc' with h4 | h4
      · rcases List.mem_cons.mp h4 with h5 | h5
        · exact Or.inl (by rw [h5]; simp)
        · simp only [List.mem_singleton] at h5
          exact Or.inr (by rw [h5]; simp)
      · exact Or.inr (List.mem_cons_of_mem _ h4)
    | p1 :: p2 :: p3 :: ps =>
      have hc' : c ∈ rwsAux ((p1 :: p2 :: p3 :: ps) ++ [a]) cs := hc
      rcases ih ((p1 :: p2 :: p3 :: ps) ++ [a]) c hc' with h4 | h4
      · rcases List.mem_append.mp h4 with h5 | h5
        · exact Or.inl h5
        · simp only [List.mem_singleton] at h5
          exact Or.inr (by rw [h5]; simp)
      · exact Or.inr (List.mem_cons_of_mem _ h4)

theorem replace_waw_space_eq_of_no_occurrence (s : Str)
    (h : ¬ ([' ', wawChar, ' '] <:+: s)) : replace_waw_space s = s := by
  have := rwsAux_eq_of_no_occurrence s [] (by simpa using h)
  simpa [replace_waw_space] using this

theorem replace_waw_space_mem (s : Str) (c : Char) (hc : c ∈ replace_waw_space s) :
    c ∈ s := by
  rcases rwsAux_mem s [] c hc with h | h
  · simp at h
  · exact h

/-! Character classification lemmas for the normalizer stages. -/

theorem foldl_removeChar_mem (ms : List Char) :
    ∀ s c, c ∈ ms.foldl (fun acc m => removeChar m acc) s → c ∈ s ∧ c ∉ ms := by
  induction ms with
  | nil => intro s c hc; exact ⟨hc, by simp⟩
  | cons m rest ih =>
    intro s c hc
    obtain ⟨h1, h2⟩ := ih (removeChar m s) c hc
    simp only [removeChar, List.mem_filter, decide_eq_true_eq] at h1
    refine ⟨h1.1, ?_⟩
    simp only [List.mem_cons, not_or]
    exact ⟨by simpa using h1.2, h2⟩

theorem foldl_removeChar_eq_self (ms : List Char) :
    ∀ s, (∀ c ∈ s, c ∉ ms) → ms.foldl (fun acc m => removeChar m acc) s = s := by
  induction ms with
  | nil => intro s h; rfl
  | cons m rest ih =>
    intro s h
    have h1 : removeChar m s = s := by
      apply List.filter_eq_self.mpr
      intro c hc
      simpa using fun he => (h c hc) (by rw [he]; simp)
    show rest.foldl (fun acc m => removeChar m acc) (removeChar m s) = s
    rw [h1]
    exact ih s (fun c hc hm => h c hc (List.mem_cons_of_mem _ hm))

theorem remove_all_marks_mem (s : Str) (c : Char) (hc : c ∈ remove_all_marks s) :
    c ∈ s ∧ c ∉ ALL_DIACRITICS_AND_MARKS :=
  foldl_removeChar_mem _ s c hc

theorem remove_all_marks_eq_self (s : Str) (h : ∀ c ∈ s, c ∉ ALL_DIACRITICS_AND_MARKS) :
    remove_all_marks s = s :=
  foldl_removeChar_eq_self _ s h

theorem regex_sweep_mem (s : Str) (c : Char) (hc : c ∈ regex_sweep s) :
    c ∈ s ∧ inDiacriticRanges c = false := by
  simp only [regex_sweep, List.mem_filter, Bool.not_eq_true'] at hc
  exact hc

theorem regex_sweep_eq_self (s : Str) (h : ∀ c ∈ s, inDiacriticRanges c = false) :
    regex_sweep s = s := by
  apply List.filter_eq_self.mpr
  intro c hc
  simp [h c hc]

theorem charReplace_mem (a b : Char) (s : Str) (c : Char) (hc : c ∈ charReplace a b s) :
    c = b ∨ (c ∈ s ∧ c ≠ a) := by
  simp only [charReplace, List.mem_map] at hc
  obtain ⟨d, hd, he⟩ := hc
  by_cases hda : d = a
  · rw [hda, if_pos rfl] at he; exact Or.inl he.symm
  · rw [if_neg hda] at he; subst he; exact Or.inr ⟨hd, hda⟩

theorem charReplace_eq_self (a b : Char) (s : Str) (h : ∀ c ∈ s, c ≠ a) :
    charReplace a b s = s := by
  unfold charReplace
  rw [List.map_congr_left (fun c hc => by rw [if_neg (h c hc)])]
  exact List.map_id _

/-- The three Alif variants folded into plain Alif by the normalizer. -/
def isAlifVariant (c : Char) : Bool :=
  c = Char.ofNat 0x671 || c = Char.ofNat 0x623 || c = Char.ofNat 0x625

/-- Characters that can occur in the output of `normalize_arabic_text`:
not in the removal table, not in the regex ranges, and not one of the three
folded Alif variants. -/
def survivesNormalization (c : Char) : Bool :=
  !(decide (c ∈ ALL_DIACRITICS_AND_MARKS)) && !(inDiacriticRanges c) && !(isAlifVariant c)

theorem survives_iff (c : Char) : survivesNormalization c = true ↔
    c ∉ ALL_DIACRITICS_AND_MARKS ∧ inDiacriticRanges c = false ∧ isAlifVariant c = false := by
  simp [survivesNormalization, and_assoc]

theorem isAlifVariant_false (c : Char) (h : isAlifVariant c = false) :
    c ≠ Char.ofNat 0x671 ∧ c ≠ Char.ofNat 0x623 ∧ c ≠ Char.ofNat 0x625 := by
  simp only [isAlifVariant, Bool.or_eq_false_iff, decide_eq_false_iff_not] at h
  exact ⟨h.1.1, h.1.2, h.2⟩

theorem fold_alif_variants_mem (s : Str) (c : Char) (hc : c ∈ fold_alif_variants s) :
    c = alefChar ∨ (c ∈ s ∧ isAlifVariant c = false) := by
  unfold fold_alif_variants at hc
  rcases charReplace_mem _ _ _ _ hc with h | ⟨h2, h625⟩
  · exact Or.inl h
  rcases charReplace_mem _ _ _ _ h2 with h | ⟨h3, h623⟩
  · exact Or.inl h
  rcases charReplace_mem _ _ _ _ h3 with h | ⟨h4, h671⟩
  · exact Or.inl h
  · refine Or.inr ⟨h4, ?_⟩
    simp [isAlifVariant, h625, h623, h671]

theorem normalize_mem_survives (s : Str) (c : Char) (hc : c ∈ normalize_arabic_text s) :
    survivesNormalization c = true := by
  unfold normalize_arabic_text at hc
  by_cases hs : s = []
  · rw [if_pos hs] at hc; subst hs; simp at hc
  rw [if_neg hs] at hc
  rcases collapse_ws_mem _ _ hc with hsp | hc2
  · subst hsp; decide
  have hc3 := replace_waw_space_mem _ _ hc2
  rcases fold_alif_variants_mem _ _ hc3 with ha | ⟨hc4, hvar⟩
  · subst ha; decide
  obtain ⟨hc5, hrange⟩ := regex_sweep_mem _ _ hc4
  obtain ⟨hc6, hmarks⟩ := remove_all_marks_mem _ _ hc5
  exact (survives_iff c).mpr ⟨hmarks, hrange, hvar⟩

theorem fold_alif_variants_eq_self (t : Str) (h : ∀ c ∈ t, isAlifVariant c = false) :
    fold_alif_variants t = t := by
  have e1 : charReplace (Char.ofNat 0x671) alefChar t = t :=
    charReplace_eq_self _ _ _ (fun c hc => (isAlifVariant_false c (h c hc)).1)
  have e2 : charReplace (Char.ofNat 0x623) alefChar t = t :=
    charReplace_eq_self _ _ _ (fun c hc => (isAlifVariant_false c (h c hc)).2.1)
  have e3 : charReplace (Char.ofNat 0x625) alefChar t = t :=
    charReplace_eq_self _ _ _ (fun c hc => (isAlifVariant_false c (h c hc)).2.2)
  unfold fold_alif_variants
  rw [e1, e2, e3]

theorem normalize_fixes_surviving (t : Str)
    (hall : ∀ c ∈ t, survivesNormalization c = true)
    (hwaw : ¬ ([' ', wawChar, ' '] <:+: t)) :
    normalize_arabic_text t = collapse_ws t := by
  by_cases ht : t = []
  · subst ht; rfl
  unfold normalize_arabic_text
  rw [if_neg ht]
  have h1 : remove_all_marks t = t :=
    remove_all_marks_eq_self t (fun c hc => ((survives_iff c).mp (hall c hc)).1)
  have h2 : regex_sweep t = t :=
    regex_sweep_eq_self t (fun c hc => ((survives_iff c).mp (hall c hc)).2.1)
  have h3 : fold_alif_variants t = t :=
    fold_alif_variants_eq_self t (fun c hc => ((survives_iff c).mp (hall c hc)).2.2)
  have h4 : replace_waw_space t = t := replace_waw_space_eq_of_no_occurrence t hwaw
  rw [h1, h2, h3, h4]

theorem normalize_arabic_text_collapse (s : Str) (hs : s ≠ []) :
    collapse_ws (normalize_arabic_text s) = normalize_arabic_text s := by
  unfold normalize_arabic_text
  rw [if_neg hs]
  exact collapse_ws_idem _

/-- Claim C6 (amended): `normalize_arabic_text` is idempotent on every string
whose normalized form does not contain the substring space-Waw-space.  (The
unrestricted claim is false — see the counterexample — because the Waw-space
contraction runs before the whitespace-collapse step, which can reintroduce a
space-Waw-space occurrence that only a second application would contract.) -/
theorem c6_normalize_idempotent_amended (s : Str)
    (h : ¬ ([' ', wawChar, ' '] <:+: normalize_arabic_text s)) :
    normalize_arabic_text (normalize_arabic_text s) = normalize_arabic_text s := by
  have hfix := normalize_fixes_surviving (normalize_arabic_text s)
      (fun c hc => normalize_mem_survives s c hc) h
  rw [hfix]
  by_cases hs : s = []
  · subst hs; rfl
  · exact normalize_arabic_text_collapse s hs

/-- The input string "ا و  ا" (Alef, space, Waw, space, double space, Alef):
its normalization still contains space-Waw-space, so a second application
contracts further. -/
def c6cexInput : Str := [alefChar, ' ', wawChar, ' ', ' ', alefChar]

/-- Claim C6 counterexample: `normalize_arabic_text` is not idempotent at the
concrete input "ا و  ا" — the first application yields "ا و ا" and the second
yields "ا وا". -/
theorem c6_counterexample :
    normalize_arabic_text (normalize_arabic_text c6cexInput) ≠ normalize_arabic_text c6cexInput := by
  decide

/-- Witness for the amended claim C6 at the concrete input "ا وا". -/
theorem c6_witness :
    (¬ ([' ', wawChar, ' '] <:+: normalize_arabic_text [alefChar, ' ', wawChar, alefChar])) ∧
    normalize_arabic_text (normalize_arabic_text [alefChar, ' ', wawChar, alefChar]) =
      normalize_arabic_text [alefChar, ' ', wawChar, alefChar] :=
  ⟨by decide, c6_normalize_idempotent_amended _ (by decide)⟩

/-! Data model of `models.py`.  Python `dict`s are insertion-ordered
association lists; `dict` lookup is lookup of the first matching key. -/

/-- Embedding of the `QuranVerse` dataclass. -/
structure QuranVerse where
  surah_number : Nat
  ayah_number : Nat
  text : Str
  text_normalized : Str
  is_basmalah : Bool
deriving DecidableEq, Repr

/-- Embedding of the `QuranChapter` dataclass: `ayahs` is the insertion-ordered
`dict` mapping ayah number to verse. -/
structure QuranChapter where
  number : Nat
  ayahs : List (Nat × QuranVerse)
deriving DecidableEq, Repr

/-- Embedding of the `QuranDatabase` dataclass; `surahs` is the
insertion-ordered `dict` mapping surah number to chapter, and the remaining
fields are the cache structures built by `finalize_cache`. -/
structure QuranDatabase where
  surahs : List (Nat × QuranChapter)
  total_verses : Nat := 0
  total_verses_without_basmalah : Nat := 0
  total_surahs : Nat := 114
  sorted_surahs_ref_list : List Nat := []
  sorted_ayahs_ref_list : List (Nat × Nat) := []
  corpus_combined_text : Str := []
  corpus_combined_text_normalized : Str := []
  corpus_words_list : List Str := []
  corpus_words_list_normalized : List Str := []
  _cache_enabled : Bool := false
deriving DecidableEq, Repr

/-- Python `dict` lookup (first entry with the given key). -/
def dictGet (k : Nat) : List (Nat × α) → Option α
  | [] => none
  | (k', v) :: rest => if k' = k then some v else dictGet k rest

/-- Ascending insertion (into an already sorted list), keeping equal keys in
encounter order; `pySorted` below models Python `sorted` on `Nat` keys. -/
def insertAsc (x : Nat) : List Nat → List Nat
  | [] => [x]
  | y :: ys => if x ≤ y then x :: y :: ys else y :: insertAsc x ys

/-- Model of Python `sorted` for a list of `Nat` keys (any correct sort agrees
with Python's stable sort on a list of plain integers). -/
def pySorted (l : List Nat) : List Nat := l.foldr insertAsc []

/-- Python `sorted(chapter.ayahs.keys())`. -/
def sortedAyahKeys (ch : QuranChapter) : List Nat := pySorted (ch.ayahs.map Prod.fst)

/-- Python `sorted(db.surahs.keys())`. -/
def sortedSurahKeys (db : QuranDatabase) : List Nat := pySorted (db.surahs.map Prod.fst)

/-- Embedding of `QuranChapter.get_all_verses`:
`[self.ayahs[n] for n in sorted(self.ayahs.keys())]`.  The `dict` indexing in
the source cannot fail because every key comes from the `dict` itself, so the
`filterMap` drops nothing. -/
def chapter_get_all_verses (ch : QuranChapter) : List QuranVerse :=
  (sortedAyahKeys ch).filterMap (fun k => dictGet k ch.ayahs)

/-- Embedding of `QuranDatabase.get_verse` (which raises `ValueError`, modeled
as `none`, when the surah or ayah is absent). -/
def get_verse (db : QuranDatabase) (surah_number ayah_number : Nat) : Option QuranVerse :=
  match dictGet surah_number db.surahs with
  | none => none
  | some ch => dictGet ayah_number ch.ayahs

/-- The on-demand fallback path of `QuranDatabase.get_all_verses`: sort surah
keys, then concatenate each chapter's verses in ayah order.  The `dict`
indexing cannot fail (keys come from the `dict`), so `filterMap` drops
nothing. -/
def get_all_verses_fallback (db : QuranDatabase) : List QuranVerse :=
  (sortedSurahKeys db).flatMap
    (fun sn => ((dictGet sn db.surahs).map chapter_get_all_verses).getD [])

/-- List comprehension whose body can raise (modeled by `none`): the first
failing element aborts the whole computation, as a Python exception would. -/
def mapMOpt (f : α → Option β) : List α → Option (List β)
  | [] => some []
  | x :: xs =>
    match f x, mapMOpt f xs with
    | some y, some ys => some (y :: ys)
    | _, _ => none

/-- Embedding of `QuranDatabase.get_all_verses`: the cached path looks every
reference of `sorted_ayahs_ref_list` up via `get_verse` (whose `ValueError`,
possible only for a stale reference list, is modeled by propagating `none`);
otherwise the fallback sorts on demand. -/
def get_all_verses (db : QuranDatabase) : Option (List QuranVerse) :=
  if db._cache_enabled && !db.sorted_ayahs_ref_list.isEmpty then
    mapMOpt (fun p => get_verse db p.1 p.2) db.sorted_ayahs_ref_list
  else some (get_all_verses_fallback db)

/-- Embedding of `QuranDatabase.finalize_cache`: build the sorted reference
lists and the combined corpus texts and word lists, then enable the cache.
The `dict` indexing in the source cannot fail (keys come from the `dict`s). -/
def finalize_cache (db : QuranDatabase) : QuranDatabase :=
  let sKeys := sortedSurahKeys db
  let refs := sKeys.flatMap (fun sn =>
    match dictGet sn db.surahs with
    | some ch => (sortedAyahKeys ch).map (fun a => (sn, a))
    | none => [])
  let orderedVerses := sKeys.flatMap
    (fun sn => ((dictGet sn db.surahs).map chapter_get_all_verses).getD [])
  { db with
    sorted_surahs_ref_list := sKeys,
    sorted_ayahs_ref_list := refs,
    corpus_combined_text := joinWords (orderedVerses.map (fun v => v.text)),
    corpus_combined_text_normalized :=
      joinWords (orderedVerses.map (fun v => v.text_normalized)),
    corpus_words_list := orderedVerses.flatMap (fun v => splitWs v.text),
    corpus_words_list_normalized :=
      orderedVerses.flatMap (fun v => splitWs v.text_normalized),
    _cache_enabled := true }

/-- Embedding of `QuranDatabase.search_text`: iterate the `surahs` `dict` in
insertion order, each chapter's verses in ayah order, and keep the verses
whose selected text contains the query as a substring. -/
def search_text (db : QuranDatabase) (query : Str) (normalized : Bool) : List QuranVerse :=
  (db.surahs.map Prod.snd).flatMap (fun surah =>
    (chapter_get_all_verses surah).filter (fun v =>
      query <:+: (if normalized then v.text_normalized else v.text)))

/-! Lemmas for claim C9: the cached and the fallback path of
`get_all_verses` agree. -/

theorem dictGet_isSome_of_mem_keys (k : Nat) (l : List (Nat × α))
    (h : k ∈ l.map Prod.fst) : (dictGet k l).isSome := by
  induction l with
  | nil => simp at h
  | cons p rest ih =>
    simp only [List.map_cons, List.mem_cons] at h
    by_cases hk : p.1 = k
    · simp [dictGet, hk]
    · simp only [dictGet, hk, if_false]
      exact ih (h.resolve_left (fun he => hk he.symm))

theorem pySorted_mem (l : List Nat) (x : Nat) : x ∈ pySorted l ↔ x ∈ l := by
  have hins : ∀ (y : Nat) (m : List Nat) (z : Nat), z ∈ insertAsc y m ↔ z = y ∨ z ∈ m := by
    intro y m
    induction m with
    | nil => intro z; simp [insertAsc]
    | cons a as ih =>
      intro z
      by_cases hy : y ≤ a
      · simp [insertAsc, hy]
      · simp only [insertAsc, hy, if_false, List.mem_cons, ih z]
        tauto
  induction l with
  | nil => simp [pySorted]
  | cons a as ih =>
    show x ∈ insertAsc a (pySorted as) ↔ x ∈ a :: as
    rw [hins a (pySorted as) x]
    simp only [List.mem_cons, ih]

theorem mapMOpt_eq_filterMap (f : α → Option β) (l : List α)
    (h : ∀ x ∈ l, (f x).isSome) : mapMOpt f l = some (l.filterMap f) := by
  induction l with
  | nil => rfl
  | cons x xs ih =>
    have hx := h x (List.mem_cons_self ..)
    obtain ⟨y, hy⟩ := Option.isSome_iff_exists.mp hx
    have hxs := ih (fun z hz => h z (List.mem_cons_of_mem _ hz))
    simp [mapMOpt, hy, hxs, List.filterMap_cons]

theorem mapMOpt_append_some (f : α → Option β) (l1 l2 : List α) (b1 b2 : List β)
    (h1 : mapMOpt f l1 = some b1) (h2 : mapMOpt f l2 = some b2) :
    mapMOpt f (l1 ++ l2) = some (b1 ++ b2) := by
  induction l1 generalizing b1 with
  | nil => simp only [mapMOpt] at h1; cases h1; simpa using h2
  | cons x xs ih =>
    simp only [mapMOpt] at h1
    cases hfx : f x with
    | none => rw [hfx] at h1; simp at h1
    | some y =>
      rw [hfx] at h1
      cases hxs : mapMOpt f xs with
      | none => rw [hxs] at h1; simp at h1
      | some ys =>
        rw [hxs] at h1
        simp only [Option.some.injEq] at h1
        subst h1
        simp only [List.cons_append, mapMOpt, hfx, List.append_eq, ih ys hxs]

/-- Claim C9: for every database, running `finalize_cache` and then
`get_all_verses` (the cached path over `sorted_ayahs_ref_list`) returns
exactly the sequence the on-demand fallback produces, with no lookup failing;
and on a database whose cache flag is off `get_all_verses` is the fallback by
definition.  So the two paths produce identical canonically ordered results. -/
theorem c9_get_all_verses_cache_agrees (db : QuranDatabase) :
    get_all_verses (finalize_cache db) = some (get_all_verses_fallback db) ∧
    (db._cache_enabled = false → get_all_verses db = some (get_all_verses_fallback db)) := by
  constructor
  · have hsur : (finalize_cache db).surahs = db.surahs := rfl
    have hverse : ∀ sn an, get_verse (finalize_cache db) sn an = get_verse db sn an := by
      intro sn an; rfl
    by_cases hrefs : (finalize_cache db).sorted_ayahs_ref_list.isEmpty
    · unfold get_all_verses
      rw [Bool.and_eq_false_iff.mpr (Or.inr (by simp [hrefs]))]
      rfl
    · unfold get_all_verses
      have hen : (finalize_cache db)._cache_enabled = true := rfl
      rw [if_pos (by simp [hen, hrefs])]
      show mapMOpt (fun p => get_verse (finalize_cache db) p.1 p.2)
          ((sortedSurahKeys db).flatMap (fun sn =>
            match dictGet sn db.surahs with
            | some ch => (sortedAyahKeys ch).map (fun a => (sn, a))
            | none => [])) = some (get_all_verses_fallback db)
      have hchunk : ∀ sn, mapMOpt (fun p => get_verse (finalize_cache db) p.1 p.2)
          (match dictGet sn db.surahs with
           | some ch => (sortedAyahKeys ch).map (fun a => (sn, a))
           | none => []) =
          some (((dictGet sn db.surahs).map chapter_get_all_verses).getD []) := by
        intro sn
        cases hsn : dictGet sn db.surahs with
        | none => rfl
        | some ch =>
          have hkeys : ∀ a ∈ sortedAyahKeys ch, (dictGet a ch.ayahs).isSome := by
            intro a ha
            exact dictGet_isSome_of_mem_keys a ch.ayahs ((pySorted_mem _ a).mp ha)
          have h1 : mapMOpt (fun p => get_verse (finalize_cache db) p.1 p.2)
              ((sortedAyahKeys ch).map (fun a => (sn, a))) =
              mapMOpt (fun a => dictGet a ch.ayahs) (sortedAyahKeys ch) := by
            induction (sortedAyahKeys ch) with
            | nil => rfl
            | cons a as iha =>
              simp only [List.map_cons, mapMOpt, iha]
              have : get_verse (finalize_cache db) sn a = dictGet a ch.ayahs := by
                rw [hverse]
                unfold get_verse
                rw [hsn]
              rw [this]
          rw [h1, mapMOpt_eq_filterMap _ _ hkeys]
          rfl
      have hgen : ∀ keys : List Nat,
          mapMOpt (fun p => get_verse (finalize_cache db) p.1 p.2)
            (keys.flatMap (fun sn =>
              match dictGet sn db.surahs with
              | some ch => (sortedAyahKeys ch).map (fun a => (sn, a))
              | none => [])) =
          some (keys.flatMap (fun sn =>
            ((dictGet sn db.surahs).map chapter_get_all_verses).getD [])) := by
        intro keys
        induction keys with
        | nil => rfl
        | cons k ks ih =>
          rw [List.flatMap_cons, List.flatMap_cons]
          exact mapMOpt_append_some _ _ _ _ _ (hchunk k) ih
      exact hgen (sortedSurahKeys db)
  · intro hoff
    unfold get_all_verses
    rw [Bool.and_eq_false_iff.mpr (Or.inl hoff)]
    rfl

/-- Arabic letter Ba (U+0628). -/
def baChar : Char := Char.ofNat 0x628

/-- Arabic letter Jeem (U+062C). -/
def jeemChar : Char := Char.ofNat 0x62C

/-- Concrete verse 1:1 with text "ا". -/
def verse11 : QuranVerse :=
  { surah_number := 1, ayah_number := 1, text := [alefChar],
    text_normalized := [alefChar], is_basmalah := false }

/-- Concrete verse 1:2 with text "ب". -/
def verse12 : QuranVerse :=
  { surah_number := 1, ayah_number := 2, text := [baChar],
    text_normalized := [baChar], is_basmalah := false }

/-- Concrete verse 1:3 with text "ج". -/
def verse13 : QuranVerse :=
  { surah_number := 1, ayah_number := 3, text := [jeemChar],
    text_normalized := [jeemChar], is_basmalah := false }

/-- A concrete three-verse database (one chapter). -/
def db3 : QuranDatabase :=
  { surahs := [(1, { number := 1, ayahs := [(1, verse11), (2, verse12), (3, verse13)] })] }

/-- Witness for claim C9 at the concrete database `db3` (both the finalized
cached path and the never-finalized path agree with the fallback). -/
theorem c9_witness :
    get_all_verses (finalize_cache db3) = some (get_all_verses_fallback db3) ∧
    get_all_verses db3 = some (get_all_verses_fallback db3) :=
  ⟨(c9_get_all_verses_cache_agrees db3).1, (c9_get_all_verses_cache_agrees db3).2 rfl⟩

/-! Lemmas for claim C4: `search_text` soundness, completeness and order. -/

theorem insertAsc_mem (y : Nat) (m : List Nat) (z : Nat) :
    z ∈ insertAsc y m ↔ z = y ∨ z ∈ m := by
  induction m with
  | nil => simp [insertAsc]
  | cons a as ih =>
    by_cases hy : y ≤ a
    · simp [insertAsc, hy]
    · simp only [insertAsc, hy, if_false, List.mem_cons, ih]
      tauto

theorem insertAsc_sorted (x : Nat) (l : List Nat) (h : l.Pairwise (· ≤ ·)) :
    (insertAsc x l).Pairwise (· ≤ ·) := by
  induction l with
  | nil => simp [insertAsc]
  | cons y ys ih =>
    by_cases hy : x ≤ y
    · simp only [insertAsc, hy, if_true]
      refine List.Pairwise.cons ?_ h
      intro z hz
      rcases List.mem_cons.mp hz with h1 | h1
      · subst h1; exact hy
      · exact Nat.le_trans hy (List.rel_of_pairwise_cons h h1)
    · simp only [insertAsc, hy, if_false]
      refine List.Pairwise.cons ?_ (ih (List.Pairwise.sublist (List.sublist_cons_self _ _) h))
      intro z hz
      rcases (insertAsc_mem x ys z).mp hz with h1 | h1
      · subst h1; omega
      · exact List.rel_of_pairwise_cons h h1

theorem pySorted_sorted (l : List Nat) : (pySorted l).Pairwise (· ≤ ·) := by
  induction l with
  | nil => simp [pySorted]
  | cons a as ih => exact insertAsc_sorted a (pySorted as) ih

theorem insertAsc_eq_cons (x : Nat) (l : List Nat) (h : ∀ y ∈ l, x ≤ y) :
    insertAsc x l = x :: l := by
  cases l with
  | nil => rfl
  | cons y ys => simp [insertAsc, h y (List.mem_cons_self ..)]

theorem pySorted_eq_self (l : List Nat) (h : l.Pairwise (· ≤ ·)) : pySorted l = l := by
  induction l with
  | nil => rfl
  | cons a as ih =>
    show insertAsc a (pySorted as) = a :: as
    rw [ih (List.Pairwise.sublist (List.sublist_cons_self _ _) h)]
    exact insertAsc_eq_cons a as (fun y hy => List.rel_of_pairwise_cons h hy)

theorem pySorted_perm (l : List Nat) : (pySorted l).Perm l := by
  induction l with
  | nil => rfl
  | cons a as ih =>
    have hperm : ∀ (x : Nat) (m : List Nat), (insertAsc x m).Perm (x :: m) := by
      intro x m
      induction m with
      | nil => rfl
      | cons y ys ihy =>
        by_cases hy : x ≤ y
        · simp [insertAsc, hy]
        · simp only [insertAsc, hy, if_false]
          exact (List.Perm.cons y ihy).trans (List.Perm.swap x y ys)
    exact (hperm a (pySorted as)).trans (List.Perm.cons a ih)

theorem pySorted_nodup (l : List Nat) (h : l.Nodup) : (pySorted l).Nodup :=
  ((pySorted_perm l).nodup_iff).mpr h

theorem dictGet_mem (k : Nat) (l : List (Nat × α)) (v : α) (h : dictGet k l = some v) :
    (k, v) ∈ l := by
  induction l with
  | nil => simp [dictGet] at h
  | cons p rest ih =>
    by_cases hk : p.1 = k
    · simp only [dictGet, hk, if_true, Option.some.injEq] at h
      subst h
      subst hk
      exact List.mem_cons_self ..
    · simp only [dictGet, hk, if_false] at h
      exact List.mem_cons_of_mem _ (ih h)

theorem dictGet_of_nodup (l : List (Nat × α)) (h : (l.map Prod.fst).Nodup)
    (k : Nat) (v : α) (hm : (k, v) ∈ l) : dictGet k l = some v := by
  induction l with
  | nil => simp at hm
  | cons p rest ih =>
    rcases List.mem_cons.mp hm with h1 | h1
    · subst h1; simp [dictGet]
    · have hk : p.1 ≠ k := by
        intro he
        have hmem : k ∈ rest.map Prod.fst := List.mem_map.mpr ⟨(k, v), h1, rfl⟩
        rw [List.map_cons] at h
        exact (List.nodup_cons.mp h).1 (he ▸ hmem)
      simp only [dictGet, hk, if_false]
      exact ih (List.nodup_cons.mp (by rwa [List.map_cons] at h)).2 h1

/-- Canonical strict order on (surah, ayah) coordinates. -/
def ayahLT (p q : Nat × Nat) : Prop := p.1 < q.1 ∨ (p.1 = q.1 ∧ p.2 < q.2)

/-- Canonical non-strict order on (surah, ayah) coordinates. -/
def ayahLE (p q : Nat × Nat) : Prop := p.1 < q.1 ∨ (p.1 = q.1 ∧ p.2 ≤ q.2)

instance (p q : Nat × Nat) : Decidable (ayahLT p q) := by unfold ayahLT; infer_instance

instance (p q : Nat × Nat) : Decidable (ayahLE p q) := by unfold ayahLE; infer_instance

/-- The (surah, ayah) coordinate of a verse. -/
def vkey (v : QuranVerse) : Nat × Nat := (v.surah_number, v.ayah_number)

theorem chapter_get_all_verses_order (ch : QuranChapter) (sn : Nat)
    (hnd : (ch.ayahs.map Prod.fst).Nodup)
    (hlink : ∀ q ∈ ch.ayahs, q.2.surah_number = sn ∧ q.2.ayah_number = q.1) :
    (chapter_get_all_verses ch).Pairwise (fun a b => ayahLT (vkey a) (vkey b)) ∧
    ∀ v ∈ chapter_get_all_verses ch, v.surah_number = sn := by
  constructor
  · unfold chapter_get_all_verses
    apply List.pairwise_filterMap.mpr
    have hlt : (sortedAyahKeys ch).Pairwise (· < ·) := by
      have h1 := pySorted_sorted (ch.ayahs.map Prod.fst)
      have h2 := pySorted_nodup (ch.ayahs.map Prod.fst) hnd
      exact (h1.and h2).imp (fun hab => Nat.lt_of_le_of_ne hab.1 hab.2)
    refine hlt.imp ?_
    intro k k' hkk v hv v' hv'
    simp only [Option.mem_def] at hv hv'
    obtain ⟨hs, ha⟩ := hlink (k, v) (dictGet_mem k _ v hv)
    obtain ⟨hs', ha'⟩ := hlink (k', v') (dictGet_mem k' _ v' hv')
    have hs2 : v.surah_number = sn := hs
    have hs2' : v'.surah_number = sn := hs'
    have ha2 : v.ayah_number = k := ha
    have ha2' : v'.ayah_number = k' := ha'
    right
    constructor
    · show v.surah_number = v'.surah_number
      rw [hs2, hs2']
    · show v.ayah_number < v'.ayah_number
      rw [ha2, ha2']
      exact hkk
  · intro v hv
    obtain ⟨k, hk, hdv⟩ := List.mem_filterMap.mp hv
    exact (hlink (k, v) (dictGet_mem k _ v hdv)).1

theorem flatMap_congr_mem (g1 g2 : α → List β) (m : List α) (hm : ∀ k ∈ m, g1 k = g2 k) :
    m.flatMap g1 = m.flatMap g2 := by
  induction m with
  | nil => rfl
  | cons a as ihm =>
    simp only [List.flatMap_cons]
    rw [hm a (List.mem_cons_self ..), ihm (fun k hk => hm k (List.mem_cons_of_mem _ hk))]

theorem flatMap_keys_lookup (l : List (Nat × α)) (hnd : (l.map Prod.fst).Nodup)
    (f : α → List β) :
    (l.map Prod.fst).flatMap (fun k => ((dictGet k l).map f).getD []) =
      l.flatMap (fun p => f p.2) := by
  induction l with
  | nil => rfl
  | cons p rest ih =>
    simp only [List.map_cons, List.flatMap_cons]
    have h1 : dictGet p.1 (p :: rest) = some p.2 := by simp [dictGet]
    rw [h1]
    have hnodup := List.nodup_cons.mp (by rwa [List.map_cons] at hnd)
    have h2 : ∀ k ∈ rest.map Prod.fst,
        ((dictGet k (p :: rest)).map f).getD [] = ((dictGet k rest).map f).getD [] := by
      intro k hk
      have hne : p.1 ≠ k := fun he => hnodup.1 (he ▸ hk)
      simp [dictGet, hne]
    rw [flatMap_congr_mem _ _ _ h2, ih hnodup.2]
    rfl

theorem fallback_eq_flatMap (db : QuranDatabase)
    (hsorted : (db.surahs.map Prod.fst).Pairwise (· < ·)) :
    get_all_verses_fallback db = db.surahs.flatMap (fun p => chapter_get_all_verses p.2) := by
  unfold get_all_verses_fallback
  have h1 : sortedSurahKeys db = db.surahs.map Prod.fst :=
    pySorted_eq_self _ (hsorted.imp Nat.le_of_lt)
  rw [h1]
  exact flatMap_keys_lookup db.surahs (hsorted.imp (fun h => Nat.ne_of_lt h))
      chapter_get_all_verses

/-- Claim C4: `search_text` returns exactly the verses whose selected text
(normalized or original per the flag) contains the query as a literal
substring, in canonical corpus order (surah ascending, then ayah ascending).
The hypotheses record the database invariants that hold for every corpus the
loader builds: chapters were inserted in ascending surah order (the `dict`
iterated by `search_text` preserves insertion order), ayah keys are unique in
every chapter, and every stored verse carries the coordinates it is filed
under. -/
theorem c4_search_text_exact_and_ordered (db : QuranDatabase) (query : Str) (normalized : Bool)
    (hsorted : (db.surahs.map Prod.fst).Pairwise (· < ·))
    (hinv : ∀ p ∈ db.surahs, (p.2.ayahs.map Prod.fst).Nodup ∧
        ∀ q ∈ p.2.ayahs, q.2.surah_number = p.1 ∧ q.2.ayah_number = q.1) :
    search_text db query normalized =
      (get_all_verses_fallback db).filter
        (fun v => query <:+: (if normalized then v.text_normalized else v.text)) ∧
    (search_text db query normalized).Pairwise (fun a b => ayahLT (vkey a) (vkey b)) := by
  have hfb := fallback_eq_flatMap db hsorted
  have hst : search_text db query normalized =
      (db.surahs.flatMap (fun p => chapter_get_all_verses p.2)).filter
        (fun v => query <:+: (if normalized then v.text_normalized else v.text)) := by
    unfold search_text
    rw [List.flatMap_map, List.filter_flatMap]
  have hpw : (db.surahs.flatMap (fun p => chapter_get_all_verses p.2)).Pairwise
      (fun a b => ayahLT (vkey a) (vkey b)) := by
    apply List.pairwise_flatMap.mpr
    constructor
    · intro p hp
      exact (chapter_get_all_verses_order p.2 p.1 (hinv p hp).1 (hinv p hp).2).1
    · have hlt : db.surahs.Pairwise (fun p p' => p.1 < p'.1) := List.pairwise_map.mp hsorted
      refine hlt.imp_of_mem ?_
      intro p p' hp hp' hpp
      intro x hx y hy
      have hxs : x.surah_number = p.1 :=
        (chapter_get_all_verses_order p.2 p.1 (hinv p hp).1 (hinv p hp).2).2 x hx
      have hys : y.surah_number = p'.1 :=
        (chapter_get_all_verses_order p'.2 p'.1 (hinv p' hp').1 (hinv p' hp').2).2 y hy
      left
      show x.surah_number < y.surah_number
      rw [hxs, hys]
      exact hpp
  constructor
  · rw [hst, hfb]
  · rw [hst]
    exact hpw.filter _

/-- Concrete verse 2:1 with text "ا". -/
def verse21 : QuranVerse :=
  { surah_number := 2, ayah_number := 1, text := [alefChar],
    text_normalized := [alefChar], is_basmalah := false }

/-- A concrete two-chapter database. -/
def db4 : QuranDatabase :=
  { surahs := [(1, { number := 1, ayahs := [(1, verse11), (2, verse12)] }),
               (2, { number := 2, ayahs := [(1, verse21)] })] }

/-- Witness for claim C4 at the concrete database `db4` and query "ا". -/
theorem c4_witness :
    search_text db4 [alefChar] true =
      (get_all_verses_fallback db4).filter
        (fun v => [alefChar] <:+: (if true then v.text_normalized else v.text)) ∧
    (search_text db4 [alefChar] true).Pairwise (fun a b => ayahLT (vkey a) (vkey b)) :=
  c4_search_text_exact_and_ordered db4 [alefChar] true (by decide) (by decide)

/-! Embedding and verification of `QuranDatabase.get_partial_verses` (claim C7). -/

/-- Whether the (surah, ayah) coordinate exists in the database. -/
def verse_exists (db : QuranDatabase) (p : Nat × Nat) : Bool :=
  match dictGet p.1 db.surahs with
  | none => false
  | some ch => (dictGet p.2 ch.ayahs).isSome

/-- Embedding of `QuranDatabase.get_partial_verses`: validate both coordinates
and the range direction (each failure raises `ValueError`, modeled as
`Except.error`), then collect the closed range — same-surah case filters the
start chapter's sorted ayah keys between the bounds; the multi-surah case
takes the start chapter's tail, every whole chapter with a number strictly
between (skipping absent numbers), and the end chapter's head. -/
def get_partial_verses (db : QuranDatabase) (startA endA : Nat × Nat) :
    Except Unit (List QuranVerse) :=
  match dictGet startA.1 db.surahs, dictGet endA.1 db.surahs with
  | some startCh, some endCh =>
    if (dictGet startA.2 startCh.ayahs).isNone then .error ()
    else if (dictGet endA.2 endCh.ayahs).isNone then .error ()
    else if startA.1 > endA.1 ∨ (startA.1 = endA.1 ∧ startA.2 > endA.2) then .error ()
    else if startA.1 = endA.1 then
      .ok ((sortedAyahKeys startCh).filterMap (fun k =>
        if startA.2 ≤ k ∧ k ≤ endA.2 then dictGet k startCh.ayahs else none))
    else
      .ok (((sortedAyahKeys startCh).filterMap (fun k =>
              if startA.2 ≤ k then dictGet k startCh.ayahs else none)) ++
           ((List.range' (startA.1 + 1) (endA.1 - (startA.1 + 1))).flatMap (fun sn =>
              ((dictGet sn db.surahs).map chapter_get_all_verses).getD [])) ++
           ((sortedAyahKeys endCh).filterMap (fun k =>
              if k ≤ endA.2 then dictGet k endCh.ayahs else none)))
  | _, _ => .error ()

@[simp] theorem except_isOk_ok (v : α) : (Except.ok v : Except Unit α).isOk = true := rfl

@[simp] theorem except_isOk_error : (Except.error () : Except Unit α).isOk = false := rfl

theorem get_partial_verses_isOk (db : QuranDatabase) (startA endA : Nat × Nat) :
    (get_partial_verses db startA endA).isOk =
      (verse_exists db startA && verse_exists db endA && decide (ayahLE startA endA)) := by
  unfold get_partial_verses verse_exists
  cases hs : dictGet startA.1 db.surahs with
  | none => simp
  | some startCh =>
    cases he : dictGet endA.1 db.surahs with
    | none => simp
    | some endCh =>
      dsimp only
      by_cases h1 : (dictGet startA.2 startCh.ayahs).isNone
      · rw [if_pos h1]
        simp only [except_isOk_error]
        rw [Option.isNone_iff_eq_none.mp h1]
        simp
      by_cases h2 : (dictGet endA.2 endCh.ayahs).isNone
      · rw [if_neg h1, if_pos h2]
        simp only [except_isOk_error]
        rw [Option.isNone_iff_eq_none.mp h2]
        simp
      have hs1 : (dictGet startA.2 startCh.ayahs).isSome = true := by
        simpa [Option.isSome_iff_ne_none, Option.isNone_iff_eq_none] using h1
      have hs2 : (dictGet endA.2 endCh.ayahs).isSome = true := by
        simpa [Option.isSome_iff_ne_none, Option.isNone_iff_eq_none] using h2
      by_cases h3 : startA.1 > endA.1 ∨ (startA.1 = endA.1 ∧ startA.2 > endA.2)
      · have h4 : ¬ ayahLE startA endA := by
          unfold ayahLE
          omega
        rw [if_neg h1, if_neg h2, if_pos h3]
        simp [hs1, hs2, h4]
      · have h4 : ayahLE startA endA := by
          unfold ayahLE
          omega
        rw [if_neg h1, if_neg h2, if_neg h3]
        by_cases h5 : startA.1 = endA.1
        · rw [if_pos h5]
          simp [hs1, hs2, h4]
        · rw [if_neg h5]
          simp [hs1, hs2, h4]

theorem filterMap_guard_head (l : List Nat) (g : Nat → Prop) [DecidablePred g]
    (sa : Nat) (f : Nat → Option α) :
    l.Pairwise (· ≤ ·) → sa ∈ l → g sa → (∀ k, k < sa → ¬ g k) →
    (∀ k ∈ l, (f k).isSome) →
    (l.filterMap (fun k => if g k then f k else none)).head? = f sa := by
  induction l with
  | nil => intro _ hmem; simp at hmem
  | cons k l' ih =>
    intro hsor hmem hg hlow hf
    by_cases hgk : g k
    · have hks : ¬ k < sa := fun hlt => (hlow k hlt) hgk
      have hk_eq : k = sa := by
        rcases List.mem_cons.mp hmem with h1 | h1
        · omega
        · have := List.rel_of_pairwise_cons hsor h1
          omega
      obtain ⟨v, hv⟩ := Option.isSome_iff_exists.mp (hf k (List.mem_cons_self ..))
      rw [List.filterMap_cons]
      simp only [if_pos hgk, hv]
      rw [← hk_eq, hv]
      rfl
    · have hne : sa ≠ k := fun he => hgk (he ▸ hg)
      have hmem' : sa ∈ l' := (List.mem_cons.mp hmem).resolve_left hne
      rw [List.filterMap_cons]
      simp only [if_neg hgk]
      exact ih (List.Pairwise.sublist (List.sublist_cons_self _ _) hsor) hmem' hg hlow
        (fun j hj => hf j (List.mem_cons_of_mem _ hj))

theorem filterMap_guard_head_ge (l : List Nat) (g : Nat → Prop) [DecidablePred g]
    (ea : Nat) (f : Nat → Option α) :
    l.Pairwise (fun a b => b ≤ a) → ea ∈ l → g ea → (∀ k, ea < k → ¬ g k) →
    (∀ k ∈ l, (f k).isSome) →
    (l.filterMap (fun k => if g k then f k else none)).head? = f ea := by
  induction l with
  | nil => intro _ hmem; simp at hmem
  | cons k l' ih =>
    intro hsor hmem hg hhigh hf
    by_cases hgk : g k
    · have hks : ¬ ea < k := fun hlt => (hhigh k hlt) hgk
      have hk_eq : k = ea := by
        rcases List.mem_cons.mp hmem with h1 | h1
        · omega
        · have := List.rel_of_pairwise_cons hsor h1
          omega
      obtain ⟨v, hv⟩ := Option.isSome_iff_exists.mp (hf k (List.mem_cons_self ..))
      rw [List.filterMap_cons]
      simp only [if_pos hgk, hv]
      rw [← hk_eq, hv]
      rfl
    · have hne : ea ≠ k := fun he => hgk (he ▸ hg)
      have hmem' : ea ∈ l' := (List.mem_cons.mp hmem).resolve_left hne
      rw [List.filterMap_cons]
      simp only [if_neg hgk]
      exact ih (List.Pairwise.sublist (List.sublist_cons_self _ _) hsor) hmem' hg hhigh
        (fun j hj => hf j (List.mem_cons_of_mem _ hj))

theorem filterMap_guard_getLast (l : List Nat) (g : Nat → Prop) [DecidablePred g]
    (ea : Nat) (f : Nat → Option α)
    (hsor : l.Pairwise (· ≤ ·)) (hmem : ea ∈ l) (hg : g ea)
    (hhigh : ∀ k, ea < k → ¬ g k) (hf : ∀ k ∈ l, (f k).isSome) :
    (l.filterMap (fun k => if g k then f k else none)).getLast? = f ea := by
  rw [List.getLast?_eq_head?_reverse, ← List.filterMap_reverse]
  exact filterMap_guard_head_ge l.reverse g ea f
    (List.pairwise_reverse.mpr hsor) (by simpa using hmem) hg hhigh
    (fun k hk => hf k (by simpa using hk))

theorem mem_guard_filterMap (l : List Nat) (g : Nat → Prop) [DecidablePred g]
    (f : Nat → Option α) (v : α) :
    v ∈ l.filterMap (fun k => if g k then f k else none) ↔
    ∃ k ∈ l, g k ∧ f k = some v := by
  rw [List.mem_filterMap]
  constructor
  · rintro ⟨k, hk, hv⟩
    by_cases hg : g k
    · exact ⟨k, hk, hg, by rwa [if_pos hg] at hv⟩
    · rw [if_neg hg] at hv
      exact absurd hv (by simp)
  · rintro ⟨k, hk, hg, hv⟩
    exact ⟨k, hk, by rw [if_pos hg]; exact hv⟩

theorem mem_cgav_iff (ch : QuranChapter) (v : QuranVerse) :
    v ∈ chapter_get_all_verses ch ↔ ∃ k, dictGet k ch.ayahs = some v := by
  unfold chapter_get_all_verses
  rw [List.mem_filterMap]
  constructor
  · rintro ⟨k, _, hv⟩
    exact ⟨k, hv⟩
  · rintro ⟨k, hv⟩
    refine ⟨k, ?_, hv⟩
    exact (pySorted_mem _ _).mpr (List.mem_map.mpr ⟨(k, v), dictGet_mem _ _ _ hv, rfl⟩)

theorem guard_filterMap_pairwise (ch : QuranChapter) (sn : Nat) (g : Nat → Prop)
    [DecidablePred g] (hnd : (ch.ayahs.map Prod.fst).Nodup)
    (hlink : ∀ q ∈ ch.ayahs, q.2.surah_number = sn ∧ q.2.ayah_number = q.1) :
    ((sortedAyahKeys ch).filterMap (fun k => if g k then dictGet k ch.ayahs else none)).Pairwise
      (fun a b => ayahLT (vkey a) (vkey b)) ∧
    ∀ v ∈ (sortedAyahKeys ch).filterMap (fun k => if g k then dictGet k ch.ayahs else none),
      v.surah_number = sn ∧ dictGet v.ayah_number ch.ayahs = some v ∧ g v.ayah_number := by
  constructor
  · apply List.pairwise_filterMap.mpr
    have hlt : (sortedAyahKeys ch).Pairwise (· < ·) := by
      have h1 := pySorted_sorted (ch.ayahs.map Prod.fst)
      have h2 := pySorted_nodup (ch.ayahs.map Prod.fst) hnd
      exact (h1.and h2).imp (fun hab => Nat.lt_of_le_of_ne hab.1 hab.2)
    refine hlt.imp ?_
    intro k k' hkk v hv v' hv'
    simp only [Option.mem_def] at hv hv'
    by_cases hg : g k
    · rw [if_pos hg] at hv
      by_cases hg' : g k'
      · rw [if_pos hg'] at hv'
        obtain ⟨hs, ha⟩ := hlink (k, v) (dictGet_mem k _ v hv)
        obtain ⟨hs', ha'⟩ := hlink (k', v') (dictGet_mem k' _ v' hv')
        have hs2 : v.surah_number = sn := hs
        have hs2' : v'.surah_number = sn := hs'
        have ha2 : v.ayah_number = k := ha
        have ha2' : v'.ayah_number = k' := ha'
        right
        constructor
        · show v.surah_number = v'.surah_number
          rw [hs2, hs2']
        · show v.ayah_number < v'.ayah_number
          rw [ha2, ha2']
          exact hkk
      · rw [if_neg hg'] at hv'
        exact absurd hv' (by simp)
    · rw [if_neg hg] at hv
      exact absurd hv (by simp)
  · intro v hv
    obtain ⟨k, hk, hg, hdv⟩ := (mem_guard_filterMap _ _ _ _).mp hv
    obtain ⟨hs, ha⟩ := hlink (k, v) (dictGet_mem k _ v hdv)
    have hs2 : v.surah_number = sn := hs
    have ha2 : v.ayah_number = k := ha
    exact ⟨hs2, by rw [ha2]; exact hdv, by rw [ha2]; exact hg⟩

theorem fallback_pairwise (db : QuranDatabase)
    (hsorted : (db.surahs.map Prod.fst).Pairwise (· < ·))
    (hinv : ∀ p ∈ db.surahs, (p.2.ayahs.map Prod.fst).Nodup ∧
        ∀ q ∈ p.2.ayahs, q.2.surah_number = p.1 ∧ q.2.ayah_number = q.1) :
    (get_all_verses_fallback db).Pairwise (fun a b => ayahLT (vkey a) (vkey b)) := by
  rw [fallback_eq_flatMap db hsorted]
  apply List.pairwise_flatMap.mpr
  constructor
  · intro p hp
    exact (chapter_get_all_verses_order p.2 p.1 (hinv p hp).1 (hinv p hp).2).1
  · have hlt : db.surahs.Pairwise (fun p p' => p.1 < p'.1) := List.pairwise_map.mp hsorted
    refine hlt.imp_of_mem ?_
    intro p p' hp hp' hpp x hx y hy
    have hxs : x.surah_number = p.1 :=
      (chapter_get_all_verses_order p.2 p.1 (hinv p hp).1 (hinv p hp).2).2 x hx
    have hys : y.surah_number = p'.1 :=
      (chapter_get_all_verses_order p'.2 p'.1 (hinv p' hp').1 (hinv p' hp').2).2 y hy
    left
    show x.surah_number < y.surah_number
    rw [hxs, hys]
    exact hpp

theorem ayahLT_irrefl (p : Nat × Nat) : ¬ ayahLT p p := by
  unfold ayahLT
  omega

theorem vkey_lt_antisymm (a b : QuranVerse) :
    ayahLT (vkey a) (vkey b) → ayahLT (vkey b) (vkey a) → a = b := by
  intro h1 h2
  exfalso
  unfold ayahLT at h1 h2
  omega

theorem nodup_of_pairwise_vkey_lt (l : List QuranVerse)
    (h : l.Pairwise (fun a b => ayahLT (vkey a) (vkey b))) : l.Nodup := by
  refine h.imp ?_
  intro a b hr he
  rw [he] at hr
  exact ayahLT_irrefl _ hr

theorem eq_of_mem_iff_sorted (l1 l2 : List QuranVerse)
    (h1 : l1.Pairwise (fun a b => ayahLT (vkey a) (vkey b)))
    (h2 : l2.Pairwise (fun a b => ayahLT (vkey a) (vkey b)))
    (hmem : ∀ v, v ∈ l1 ↔ v ∈ l2) : l1 = l2 := by
  have hperm := (List.perm_ext_iff_of_nodup (nodup_of_pairwise_vkey_lt _ h1)
    (nodup_of_pairwise_vkey_lt _ h2)).mpr hmem
  exact @List.eq_of_perm_of_sorted _ _ ⟨vkey_lt_antisymm⟩ l1 l2 hperm h1 h2

theorem mem_fallback (db : QuranDatabase)
    (hsorted : (db.surahs.map Prod.fst).Pairwise (· < ·)) (v : QuranVerse) :
    v ∈ get_all_verses_fallback db ↔ ∃ p ∈ db.surahs, v ∈ chapter_get_all_verses p.2 := by
  rw [fallback_eq_flatMap db hsorted]
  exact List.mem_flatMap

theorem c7_same_props (db : QuranDatabase) (ss sa ea : Nat) (startCh : QuranChapter)
    (hsorted : (db.surahs.map Prod.fst).Pairwise (· < ·))
    (hinv : ∀ p ∈ db.surahs, (p.2.ayahs.map Prod.fst).Nodup ∧
        ∀ q ∈ p.2.ayahs, q.2.surah_number = p.1 ∧ q.2.ayah_number = q.1)
    (hs : dictGet ss db.surahs = some startCh)
    (hS1 : (dictGet sa startCh.ayahs).isSome)
    (hE1 : (dictGet ea startCh.ayahs).isSome)
    (hle : sa ≤ ea) :
    ((sortedAyahKeys startCh).filterMap
        (fun k => if sa ≤ k ∧ k ≤ ea then dictGet k startCh.ayahs else none) =
      (get_all_verses_fallback db).filter
        (fun v => decide (ayahLE (ss, sa) (vkey v) ∧ ayahLE (vkey v) (ss, ea)))) ∧
    ((sortedAyahKeys startCh).filterMap
        (fun k => if sa ≤ k ∧ k ≤ ea then dictGet k startCh.ayahs else none)).head? =
      dictGet sa startCh.ayahs ∧
    ((sortedAyahKeys startCh).filterMap
        (fun k => if sa ≤ k ∧ k ≤ ea then dictGet k startCh.ayahs else none)).getLast? =
      dictGet ea startCh.ayahs ∧
    ((sortedAyahKeys startCh).filterMap
        (fun k => if sa ≤ k ∧ k ≤ ea then dictGet k startCh.ayahs else none)).Pairwise
      (fun a b => ayahLT (vkey a) (vkey b)) := by
  have hkeysnd : (db.surahs.map Prod.fst).Nodup := hsorted.imp (fun h => Nat.ne_of_lt h)
  have hpmemS : (ss, startCh) ∈ db.surahs := dictGet_mem _ _ _ hs
  obtain ⟨hndS, hlinkS⟩ := hinv _ hpmemS
  have hfS : ∀ k ∈ sortedAyahKeys startCh, (dictGet k startCh.ayahs).isSome := by
    intro k hk
    exact dictGet_isSome_of_mem_keys k _ ((pySorted_mem _ k).mp hk)
  obtain ⟨v0, hv0⟩ := Option.isSome_iff_exists.mp hS1
  obtain ⟨w0, hw0⟩ := Option.isSome_iff_exists.mp hE1
  have hsaMem : sa ∈ sortedAyahKeys startCh :=
    (pySorted_mem _ sa).mpr (List.mem_map.mpr ⟨(sa, v0), dictGet_mem _ _ _ hv0, rfl⟩)
  have heaMem : ea ∈ sortedAyahKeys startCh :=
    (pySorted_mem _ ea).mpr (List.mem_map.mpr ⟨(ea, w0), dictGet_mem _ _ _ hw0, rfl⟩)
  have hpw := guard_filterMap_pairwise startCh ss (fun k => sa ≤ k ∧ k ≤ ea) hndS hlinkS
  refine ⟨?_, ?_, ?_, hpw.1⟩
  · apply eq_of_mem_iff_sorted _ _ hpw.1 ((fallback_pairwise db hsorted hinv).filter _)
    intro v
    constructor
    · intro hvX
      obtain ⟨k, hkL, hg, hdv⟩ := (mem_guard_filterMap _ _ _ _).mp hvX
      obtain ⟨hsv, hav⟩ := hlinkS (k, v) (dictGet_mem _ _ _ hdv)
      have hsv2 : v.surah_number = ss := hsv
      have hav2 : v.ayah_number = k := hav
      refine List.mem_filter.mpr ⟨?_, ?_⟩
      · exact (mem_fallback db hsorted v).mpr
          ⟨(ss, startCh), hpmemS, (mem_cgav_iff _ _).mpr ⟨k, hdv⟩⟩
      · refine decide_eq_true ?_
        obtain ⟨hg1, hg2⟩ := hg
        constructor
        · simp only [ayahLE, vkey]
          omega
        · simp only [ayahLE, vkey]
          omega
    · intro hvF
      obtain ⟨hvfb, hbet⟩ := List.mem_filter.mp hvF
      obtain ⟨hb1, hb2⟩ := of_decide_eq_true hbet
      obtain ⟨p, hpmem, hvchap⟩ := (mem_fallback db hsorted v).mp hvfb
      obtain ⟨j, hdj⟩ := (mem_cgav_iff _ _).mp hvchap
      obtain ⟨hndP, hlinkP⟩ := hinv p hpmem
      obtain ⟨hsvP, havP⟩ := hlinkP (j, v) (dictGet_mem _ _ _ hdj)
      have hsvP2 : v.surah_number = p.1 := hsvP
      have havP2 : v.ayah_number = j := havP
      simp only [ayahLE, vkey] at hb1 hb2
      have hp1 : p.1 = ss := by omega
      have hbounds : sa ≤ j ∧ j ≤ ea := by omega
      have hgp : dictGet p.1 db.surahs = some p.2 := dictGet_of_nodup _ hkeysnd _ _ hpmem
      rw [hp1, hs] at hgp
      have hch : startCh = p.2 := by injection hgp
      apply (mem_guard_filterMap _ _ _ _).mpr
      refine ⟨j, ?_, hbounds, ?_⟩
      · rw [hch]
        exact (pySorted_mem _ j).mpr (List.mem_map.mpr ⟨(j, v), dictGet_mem _ _ _ hdj, rfl⟩)
      · rw [hch]
        exact hdj
  · exact filterMap_guard_head _ _ sa _ (pySorted_sorted _) hsaMem ⟨Nat.le_refl _, hle⟩
      (fun k hk => by omega) hfS
  · exact filterMap_guard_getLast _ _ ea _ (pySorted_sorted _) heaMem ⟨hle, Nat.le_refl _⟩
      (fun k hk => by omega) hfS

theorem c7_multi_props (db : QuranDatabase) (ss sa es ea : Nat) (startCh endCh : QuranChapter)
    (hsorted : (db.surahs.map Prod.fst).Pairwise (· < ·))
    (hinv : ∀ p ∈ db.surahs, (p.2.ayahs.map Prod.fst).Nodup ∧
        ∀ q ∈ p.2.ayahs, q.2.surah_number = p.1 ∧ q.2.ayah_number = q.1)
    (hs : dictGet ss db.surahs = some startCh)
    (he : dictGet es db.surahs = some endCh)
    (hS1 : (dictGet sa startCh.ayahs).isSome)
    (hE1 : (dictGet ea endCh.ayahs).isSome)
    (hlt : ss < es) :
    (((sortedAyahKeys startCh).filterMap
        (fun k => if sa ≤ k then dictGet k startCh.ayahs else none)) ++
      ((List.range' (ss + 1) (es - (ss + 1))).flatMap (fun sn =>
        ((dictGet sn db.surahs).map chapter_get_all_verses).getD [])) ++
      ((sortedAyahKeys endCh).filterMap
        (fun k => if k ≤ ea then dictGet k endCh.ayahs else none)) =
      (get_all_verses_fallback db).filter
        (fun v => decide (ayahLE (ss, sa) (vkey v) ∧ ayahLE (vkey v) (es, ea)))) ∧
    (((sortedAyahKeys startCh).filterMap
        (fun k => if sa ≤ k then dictGet k startCh.ayahs else none)) ++
      ((List.range' (ss + 1) (es - (ss + 1))).flatMap (fun sn =>
        ((dictGet sn db.surahs).map chapter_get_all_verses).getD [])) ++
      ((sortedAyahKeys endCh).filterMap
        (fun k => if k ≤ ea then dictGet k endCh.ayahs else none))).head? =
      dictGet sa startCh.ayahs ∧
    (((sortedAyahKeys startCh).filterMap
        (fun k => if sa ≤ k then dictGet k startCh.ayahs else none)) ++
      ((List.range' (ss + 1) (es - (ss + 1))).flatMap (fun sn =>
        ((dictGet sn db.surahs).map chapter_get_all_verses).getD [])) ++
      ((sortedAyahKeys endCh).filterMap
        (fun k => if k ≤ ea then dictGet k endCh.ayahs else none))).getLast? =
      dictGet ea endCh.ayahs ∧
    (((sortedAyahKeys startCh).filterMap
        (fun k => if sa ≤ k then dictGet k startCh.ayahs else none)) ++
      ((List.range' (ss + 1) (es - (ss + 1))).flatMap (fun sn =>
        ((dictGet sn db.surahs).map chapter_get_all_verses).getD [])) ++
      ((sortedAyahKeys endCh).filterMap
        (fun k => if k ≤ ea then dictGet k endCh.ayahs else none))).Pairwise
      (fun a b => ayahLT (vkey a) (vkey b)) := by
  have hkeysnd : (db.surahs.map Prod.fst).Nodup := hsorted.imp (fun h => Nat.ne_of_lt h)
  have hpmemS : (ss, startCh) ∈ db.surahs := dictGet_mem _ _ _ hs
  have hpmemE : (es, endCh) ∈ db.surahs := dictGet_mem _ _ _ he
  obtain ⟨hndS, hlinkS⟩ := hinv _ hpmemS
  obtain ⟨hndE, hlinkE⟩ := hinv _ hpmemE
  have hfS : ∀ k ∈ sortedAyahKeys startCh, (dictGet k startCh.ayahs).isSome := by
    intro k hk
    exact dictGet_isSome_of_mem_keys k _ ((pySorted_mem _ k).mp hk)
  have hfE : ∀ k ∈ sortedAyahKeys endCh, (dictGet k endCh.ayahs).isSome := by
    intro k hk
    exact dictGet_isSome_of_mem_keys k _ ((pySorted_mem _ k).mp hk)
  obtain ⟨v0, hv0⟩ := Option.isSome_iff_exists.mp hS1
  obtain ⟨w0, hw0⟩ := Option.isSome_iff_exists.mp hE1
  have hsaMem : sa ∈ sortedAyahKeys startCh :=
    (pySorted_mem _ sa).mpr (List.mem_map.mpr ⟨(sa, v0), dictGet_mem _ _ _ hv0, rfl⟩)
  have heaMem : ea ∈ sortedAyahKeys endCh :=
    (pySorted_mem _ ea).mpr (List.mem_map.mpr ⟨(ea, w0), dictGet_mem _ _ _ hw0, rfl⟩)
  have hpwS := guard_filterMap_pairwise startCh ss (fun k => sa ≤ k) hndS hlinkS
  have hpwE := guard_filterMap_pairwise endCh es (fun k => k ≤ ea) hndE hlinkE
  have hmid_mem : ∀ v, v ∈ (List.range' (ss + 1) (es - (ss + 1))).flatMap (fun sn =>
      ((dictGet sn db.surahs).map chapter_get_all_verses).getD []) ↔
      ∃ sn, (ss + 1 ≤ sn ∧ sn < es) ∧ ∃ ch, dictGet sn db.surahs = some ch ∧
        v ∈ chapter_get_all_verses ch := by
    intro v
    rw [List.mem_flatMap]
    constructor
    · rintro ⟨sn, hsn, hv⟩
      rw [List.mem_range'_1] at hsn
      cases hd : dictGet sn db.surahs with
      | none => rw [hd] at hv; simp at hv
      | some ch =>
        rw [hd] at hv
        simp only [Option.map_some', Option.getD_some] at hv
        exact ⟨sn, ⟨hsn.1, by omega⟩, ch, hd, hv⟩
    · rintro ⟨sn, hsn, ch, hd, hv⟩
      refine ⟨sn, List.mem_range'_1.mpr ⟨hsn.1, by omega⟩, ?_⟩
      rw [hd]
      simpa using hv
  have hmid_surah : ∀ sn ch v, dictGet sn db.surahs = some ch →
      v ∈ chapter_get_all_verses ch → v.surah_number = sn := by
    intro sn ch v hd hv
    obtain ⟨hndC, hlinkC⟩ := hinv (sn, ch) (dictGet_mem _ _ _ hd)
    exact (chapter_get_all_verses_order ch sn hndC hlinkC).2 v hv
  have hseg1_surah : ∀ v ∈ (sortedAyahKeys startCh).filterMap
      (fun k => if sa ≤ k then dictGet k startCh.ayahs else none),
      v.surah_number = ss ∧ sa ≤ v.ayah_number := by
    intro v hv
    obtain ⟨h1, h2, h3⟩ := hpwS.2 v hv
    exact ⟨h1, h3⟩
  have hseg3_surah : ∀ v ∈ (sortedAyahKeys endCh).filterMap
      (fun k => if k ≤ ea then dictGet k endCh.ayahs else none),
      v.surah_number = es ∧ v.ayah_number ≤ ea := by
    intro v hv
    obtain ⟨h1, h2, h3⟩ := hpwE.2 v hv
    exact ⟨h1, h3⟩
  have hpwM : ((List.range' (ss + 1) (es - (ss + 1))).flatMap (fun sn =>
      ((dictGet sn db.surahs).map chapter_get_all_verses).getD [])).Pairwise
      (fun a b => ayahLT (vkey a) (vkey b)) := by
    apply List.pairwise_flatMap.mpr
    constructor
    · intro sn hsn
      cases hd : dictGet sn db.surahs with
      | none => simp
      | some ch =>
        simp only [Option.map_some', Option.getD_some]
        obtain ⟨hndC, hlinkC⟩ := hinv (sn, ch) (dictGet_mem _ _ _ hd)
        exact (chapter_get_all_verses_order ch sn hndC hlinkC).1
    · refine (List.pairwise_lt_range' _ _).imp ?_
      intro sn sn' hss x hx y hy
      cases hd : dictGet sn db.surahs with
      | none => rw [hd] at hx; simp at hx
      | some ch =>
        rw [hd] at hx
        simp only [Option.map_some', Option.getD_some] at hx
        cases hd' : dictGet sn' db.surahs with
        | none => rw [hd'] at hy; simp at hy
        | some ch' =>
          rw [hd'] at hy
          simp only [Option.map_some', Option.getD_some] at hy
          left
          show x.surah_number < y.surah_number
          rw [hmid_surah sn ch x hd hx, hmid_surah sn' ch' y hd' hy]
          exact hss
  have hmid_surah_mem : ∀ v ∈ (List.range' (ss + 1) (es - (ss + 1))).flatMap (fun sn =>
      ((dictGet sn db.surahs).map chapter_get_all_verses).getD []),
      ss < v.surah_number ∧ v.surah_number < es := by
    intro v hv
    obtain ⟨sn, hsnb, ch, hd, hvch⟩ := (hmid_mem v).mp hv
    have := hmid_surah sn ch v hd hvch
    omega
  have hpwAll : (((sortedAyahKeys startCh).filterMap
        (fun k => if sa ≤ k then dictGet k startCh.ayahs else none)) ++
      ((List.range' (ss + 1) (es - (ss + 1))).flatMap (fun sn =>
        ((dictGet sn db.surahs).map chapter_get_all_verses).getD [])) ++
      ((sortedAyahKeys endCh).filterMap
        (fun k => if k ≤ ea then dictGet k endCh.ayahs else none))).Pairwise
      (fun a b => ayahLT (vkey a) (vkey b)) := by
    apply List.pairwise_append.mpr
    refine ⟨?_, hpwE.1, ?_⟩
    · apply List.pairwise_append.mpr
      refine ⟨hpwS.1, hpwM, ?_⟩
      intro x hx y hy
      have hxs : x.surah_number = ss := (hseg1_surah x hx).1
      have hys := hmid_surah_mem y hy
      left
      show x.surah_number < y.surah_number
      omega
    · intro x hx y hy
      have hys : y.surah_number = es := (hseg3_surah y hy).1
      rcases List.mem_append.mp hx with hx1 | hx2
      · have hxs : x.surah_number = ss := (hseg1_surah x hx1).1
        left
        show x.surah_number < y.surah_number
        omega
      · have hxs := hmid_surah_mem x hx2
        left
        show x.surah_number < y.surah_number
        omega
  refine ⟨?_, ?_, ?_, hpwAll⟩
  · apply eq_of_mem_iff_sorted _ _ hpwAll ((fallback_pairwise db hsorted hinv).filter _)
    intro v
    constructor
    · intro hvX
      rcases List.mem_append.mp hvX with hv12 | hv3
      · rcases List.mem_append.mp hv12 with hv1 | hv2
        · obtain ⟨k, hkL, hg, hdv⟩ := (mem_guard_filterMap _ _ _ _).mp hv1
          obtain ⟨hsv, hav⟩ := hlinkS (k, v) (dictGet_mem _ _ _ hdv)
          have hsv2 : v.surah_number = ss := hsv
          have hav2 : v.ayah_number = k := hav
          refine List.mem_filter.mpr ⟨(mem_fallback db hsorted v).mpr
            ⟨(ss, startCh), hpmemS, (mem_cgav_iff _ _).mpr ⟨k, hdv⟩⟩, decide_eq_true ?_⟩
          constructor
          · simp only [ayahLE, vkey]
            omega
          · simp only [ayahLE, vkey]
            omega
        · obtain ⟨sn, hsnb, ch, hd, hvch⟩ := (hmid_mem v).mp hv2
          have hsv2 : v.surah_number = sn := hmid_surah sn ch v hd hvch
          refine List.mem_filter.mpr ⟨(mem_fallback db hsorted v).mpr
            ⟨(sn, ch), dictGet_mem _ _ _ hd, hvch⟩, decide_eq_true ?_⟩
          constructor
          · simp only [ayahLE, vkey]
            omega
          · simp only [ayahLE, vkey]
            omega
      · obtain ⟨k, hkL, hg, hdv⟩ := (mem_guard_filterMap _ _ _ _).mp hv3
        obtain ⟨hsv, hav⟩ := hlinkE (k, v) (dictGet_mem _ _ _ hdv)
        have hsv2 : v.surah_number = es := hsv
        have hav2 : v.ayah_number = k := hav
        refine List.mem_filter.mpr ⟨(mem_fallback db hsorted v).mpr
          ⟨(es, endCh), hpmemE, (mem_cgav_iff _ _).mpr ⟨k, hdv⟩⟩, decide_eq_true ?_⟩
        constructor
        · simp only [ayahLE, vkey]
          omega
        · simp only [ayahLE, vkey]
          omega
    · intro hvF
      obtain ⟨hvfb, hbet⟩ := List.mem_filter.mp hvF
      obtain ⟨hb1, hb2⟩ := of_decide_eq_true hbet
      obtain ⟨p, hpmem, hvchap⟩ := (mem_fallback db hsorted v).mp hvfb
      obtain ⟨j, hdj⟩ := (mem_cgav_iff _ _).mp hvchap
      obtain ⟨hndP, hlinkP⟩ := hinv p hpmem
      obtain ⟨hsvP, havP⟩ := hlinkP (j, v) (dictGet_mem _ _ _ hdj)
      have hsvP2 : v.surah_number = p.1 := hsvP
      have havP2 : v.ayah_number = j := havP
      simp only [ayahLE, vkey] at hb1 hb2
      have hgp : dictGet p.1 db.surahs = some p.2 := dictGet_of_nodup _ hkeysnd _ _ hpmem
      apply List.mem_append.mpr
      by_cases hps : p.1 = ss
      · left
        apply List.mem_append.mpr
        left
        rw [hps, hs] at hgp
        have hch : startCh = p.2 := by injection hgp
        apply (mem_guard_filterMap _ _ _ _).mpr
        refine ⟨j, ?_, by omega, ?_⟩
        · rw [hch]
          exact (pySorted_mem _ j).mpr (List.mem_map.mpr ⟨(j, v), dictGet_mem _ _ _ hdj, rfl⟩)
        · rw [hch]
          exact hdj
      by_cases hpe : p.1 = es
      · right
        rw [hpe, he] at hgp
        have hch : endCh = p.2 := by injection hgp
        apply (mem_guard_filterMap _ _ _ _).mpr
        refine ⟨j, ?_, by omega, ?_⟩
        · rw [hch]
          exact (pySorted_mem _ j).mpr (List.mem_map.mpr ⟨(j, v), dictGet_mem _ _ _ hdj, rfl⟩)
        · rw [hch]
          exact hdj
      · left
        apply List.mem_append.mpr
        right
        apply (hmid_mem v).mpr
        exact ⟨p.1, by omega, p.2, hgp, hvchap⟩
  · rw [List.head?_append, List.head?_append]
    have hhead1 : ((sortedAyahKeys startCh).filterMap
        (fun k => if sa ≤ k then dictGet k startCh.ayahs else none)).head? =
        dictGet sa startCh.ayahs :=
      filterMap_guard_head _ _ sa _ (pySorted_sorted _) hsaMem (Nat.le_refl _)
        (fun k hk => by omega) hfS
    rw [hhead1, hv0]
    rfl
  · rw [List.getLast?_append]
    have hlast3 : ((sortedAyahKeys endCh).filterMap
        (fun k => if k ≤ ea then dictGet k endCh.ayahs else none)).getLast? =
        dictGet ea endCh.ayahs :=
      filterMap_guard_getLast _ _ ea _ (pySorted_sorted _) heaMem (Nat.le_refl _)
        (fun k hk => by omega) hfE
    rw [hlast3, hw0]
    rfl

/-- Claim C7: `get_partial_verses` raises `ValueError` exactly when a
coordinate does not exist or the start sorts after the end in canonical
order (malformed tuples cannot arise in the typed embedding); otherwise it
returns precisely the verses of the inclusive canonical range — the
canonically ordered sublist of all verses between the two coordinates —
whose first element is `get_verse(start)` and whose last element is
`get_verse(end)`.  The hypotheses are the loader-established database
invariants (ascending unique surah keys, unique ayah keys, verses filed
under their own coordinates). -/
theorem c7_get_partial_verses (db : QuranDatabase) (startA endA : Nat × Nat)
    (hsorted : (db.surahs.map Prod.fst).Pairwise (· < ·))
    (hinv : ∀ p ∈ db.surahs, (p.2.ayahs.map Prod.fst).Nodup ∧
        ∀ q ∈ p.2.ayahs, q.2.surah_number = p.1 ∧ q.2.ayah_number = q.1) :
    ((get_partial_verses db startA endA).isOk =
      (verse_exists db startA && verse_exists db endA && decide (ayahLE startA endA))) ∧
    ∀ vs, get_partial_verses db startA endA = Except.ok vs →
      vs = (get_all_verses_fallback db).filter
            (fun v => decide (ayahLE startA (vkey v) ∧ ayahLE (vkey v) endA)) ∧
      vs.head? = get_verse db startA.1 startA.2 ∧
      vs.getLast? = get_verse db endA.1 endA.2 ∧
      vs.Pairwise (fun a b => ayahLT (vkey a) (vkey b)) := by
  refine ⟨get_partial_verses_isOk db startA endA, ?_⟩
  intro vs hvs
  unfold get_partial_verses at hvs
  cases hs : dictGet startA.1 db.surahs with
  | none => rw [hs] at hvs; exact absurd hvs (by simp)
  | some startCh =>
  cases he : dictGet endA.1 db.surahs with
  | none => rw [hs, he] at hvs; exact absurd hvs (by simp)
  | some endCh =>
  rw [hs, he] at hvs
  dsimp only at hvs
  by_cases h1 : (dictGet startA.2 startCh.ayahs).isNone
  · rw [if_pos h1] at hvs; exact absurd hvs (by simp)
  rw [if_neg h1] at hvs
  by_cases h2 : (dictGet endA.2 endCh.ayahs).isNone
  · rw [if_pos h2] at hvs; exact absurd hvs (by simp)
  rw [if_neg h2] at hvs
  by_cases h3 : startA.1 > endA.1 ∨ (startA.1 = endA.1 ∧ startA.2 > endA.2)
  · rw [if_pos h3] at hvs; exact absurd hvs (by simp)
  rw [if_neg h3] at hvs
  have hS1 : (dictGet startA.2 startCh.ayahs).isSome := by
    cases hx : dictGet startA.2 startCh.ayahs with
    | none => exact absurd (by rw [hx]; rfl) h1
    | some _ => rfl
  have hE1 : (dictGet endA.2 endCh.ayahs).isSome := by
    cases hx : dictGet endA.2 endCh.ayahs with
    | none => exact absurd (by rw [hx]; rfl) h2
    | some _ => rfl
  have hgvS : get_verse db startA.1 startA.2 = dictGet startA.2 startCh.ayahs := by
    unfold get_verse
    rw [hs]
  have hgvE : get_verse db endA.1 endA.2 = dictGet endA.2 endCh.ayahs := by
    unfold get_verse
    rw [he]
  by_cases h4 : startA.1 = endA.1
  · rw [if_pos h4] at hvs
    have hChEq : startCh = endCh := by
      rw [h4] at hs
      rw [hs] at he
      injection he
    have hle : startA.2 ≤ endA.2 := by omega
    have hprops := c7_same_props db startA.1 startA.2 endA.2 startCh hsorted hinv hs hS1
      (by rw [hChEq]; exact hE1) hle
    injection hvs with hveq
    subst hveq
    refine ⟨?_, ?_, ?_, hprops.2.2.2⟩
    · have := hprops.1
      rw [this]
      have hpair : startA = (startA.1, startA.2) := rfl
      have hpair2 : endA = (endA.1, endA.2) := rfl
      rw [hpair, hpair2, ← h4]
    · rw [hgvS]
      exact hprops.2.1
    · rw [hgvE, ← hChEq]
      exact hprops.2.2.1
  · rw [if_neg h4] at hvs
    have hlt : startA.1 < endA.1 := by omega
    have hprops := c7_multi_props db startA.1 startA.2 endA.1 endA.2 startCh endCh
      hsorted hinv hs he hS1 hE1 hlt
    injection hvs with hveq
    subst hveq
    refine ⟨?_, ?_, ?_, hprops.2.2.2⟩
    · have := hprops.1
      rw [this]
    · rw [hgvS]
      exact hprops.2.1
    · rw [hgvE]
      exact hprops.2.2.1

/-- Witness for claim C7 at the concrete database `db4` with the range
(1,2)..(2,1), which crosses a chapter boundary. -/
theorem c7_witness :
    ((get_partial_verses db4 (1, 2) (2, 1)).isOk =
      (verse_exists db4 (1, 2) && verse_exists db4 (2, 1) && decide (ayahLE (1, 2) (2, 1)))) ∧
    ∀ vs, get_partial_verses db4 (1, 2) (2, 1) = Except.ok vs →
      vs = (get_all_verses_fallback db4).filter
            (fun v => decide (ayahLE (1, 2) (vkey v) ∧ ayahLE (vkey v) (2, 1))) ∧
      vs.head? = get_verse db4 1 2 ∧
      vs.getLast? = get_verse db4 2 1 ∧
      vs.Pairwise (fun a b => ayahLT (vkey a) (vkey b)) :=
  c7_get_partial_verses db4 (1, 2) (2, 1) (by decide) (by decide)

/-! Embedding of the single-unit fuzzy matcher of `text_utils.py`.  The two
rapidfuzz scorers (`fuzz.token_set_ratio`, `fuzz.token_sort_ratio`) are
parameters, so theorems quantified over them cover the real library; concrete
model implementations are given below for evaluation. -/

/-- Banker's rounding to the nearest integer (ties to even), as Python
`round`. -/
def bankersRound (x : ℚ) : ℤ :=
  let f := Int.floor x
  let r := x - f
  if r < 1/2 then f
  else if r > 1/2 then f + 1
  else if f % 2 = 0 then f else f + 1

/-- Python `round(x, 3)`. -/
def pyRound3 (x : ℚ) : ℚ := (bankersRound (x * 1000) : ℚ) / 1000

/-- Running best-match state of `fuzzy_substring_search`: best score, word
range and matched text seen so far. -/
structure FSSState where
  score : ℚ
  range1 : Nat
  range2 : Nat
  text : Str
deriving DecidableEq, Repr

/-- One candidate window evaluation in `fuzzy_substring_search`: skip windows
running past the text, otherwise score the joined segment (rapidfuzz scores
are on a 0..100 scale and divided by 100) and keep it when strictly better. -/
def fssStep (scorer : Str → Str → ℚ) (query : Str) (textWords : List Str)
    (st : FSSState) (i cw : Nat) : FSSState :=
  if i + cw > textWords.length then st
  else if scorer query (joinWords ((textWords.drop i).take cw)) / 100 > st.score then
    ⟨scorer query (joinWords ((textWords.drop i).take cw)) / 100, i, i + cw,
     joinWords ((textWords.drop i).take cw)⟩
  else st

/-- Number of window start offsets scanned by `fuzzy_substring_search`:
`range(max(1, len(text_words) - query_len + 1))` clamped to 0 when the text
is shorter than the query. -/
def fssMaxStart (textLen q_len : Nat) : Nat :=
  if textLen < q_len then 0 else textLen - q_len + 1

/-- One full scan of `fuzzy_substring_search` with a single scorer: every
start offset, window sizes `query_len` and `min window_size (rest)`. -/
def fssLoop (scorer : Str → Str → ℚ) (query : Str) (textWords : List Str)
    (q_len ws maxStart : Nat) (init : FSSState) : FSSState :=
  (List.range maxStart).foldl (fun st i =>
    ([q_len, min ws (textWords.length - i)]).foldl
      (fun st2 cw => fssStep scorer query textWords st2 i cw) st) init

/-- The two scans of `fuzzy_substring_search`: first the set-based scorer,
then the sort-based scorer, continuing from the same best state. -/
def fssCore (tset tsort : Str → Str → ℚ) (query : Str) (textWords : List Str)
    (q_len ws : Nat) : FSSState :=
  fssLoop tsort query textWords q_len ws (fssMaxStart textWords.length q_len)
    (fssLoop tset query textWords q_len ws (fssMaxStart textWords.length q_len)
      ⟨0, 0, 0, []⟩)

/-- The effective window size: the caller's value when truthy, else
`max(query_len + 3, query_len * 2)`. -/
def fssWindowSize (window_size : Option Nat) (q_len : Nat) : Nat :=
  match window_size with
  | some n => if n ≠ 0 then n else max (q_len + 3) (q_len * 2)
  | none => max (q_len + 3) (q_len * 2)

/-- Embedding of `fuzzy_substring_search`: slide both window sizes over every
offset, first with the set-based scorer, then with the sort-based scorer,
keeping the best strictly-improving window; return `none` below the
threshold, else the word range, the score rounded to 3 decimals, and the
matched segment. -/
def fuzzy_substring_search (tset tsort : Str → Str → ℚ) (query text : Str)
    (window_size : Option Nat) (threshold : ℚ) : Option (Nat × Nat × ℚ × Str) :=
  if pyStrip query = [] ∨ pyStrip text = [] then none
  else if (splitWs query).length = 0 ∨ (splitWs text).length = 0 then none
  else if (fssCore tset tsort query (splitWs text) (splitWs query).length
      (fssWindowSize window_size (splitWs query).length)).score < threshold then none
  else some ((fssCore tset tsort query (splitWs text) (splitWs query).length
        (fssWindowSize window_size (splitWs query).length)).range1,
      (fssCore tset tsort query (splitWs text) (splitWs query).length
        (fssWindowSize window_size (splitWs query).length)).range2,
      pyRound3 (fssCore tset tsort query (splitWs text) (splitWs query).length
        (fssWindowSize window_size (splitWs query).length)).score,
      (fssCore tset tsort query (splitWs text) (splitWs query).length
        (fssWindowSize window_size (splitWs query).length)).text)

/-- Embedding of the `FuzzySearchResult` dataclass. -/
structure FuzzySearchResult where
  verse : QuranVerse
  start_word : Nat
  end_word : Nat
  similarity : ℚ
  matched_text : Str
  query_text : Str
deriving DecidableEq, Repr

/-- Stable descending insertion for `sortDescBy`. -/
def insertDescBy (f : α → ℚ) (x : α) : List α → List α
  | [] => [x]
  | y :: ys => if f x > f y then x :: y :: ys else y :: insertDescBy f x ys

/-- Model of Python `list.sort(key=..., reverse=True)`: stable sort placing
higher keys first (equal keys keep their original relative order, exactly as
Python's stable sort with reverse=True). -/
def sortDescBy (f : α → ℚ) : List α → List α
  | [] => []
  | x :: xs => insertDescBy f x (sortDescBy f xs)

/-- Python truthiness of the `max_results` argument: `None` and `0` are both
falsy, so neither imposes a cap. -/
def maxTruthy : Option Nat → Bool
  | none => false
  | some n => n != 0

/-- The query text actually searched by `fuzzy_search_text`: the stripped
query, normalized when the `normalized` flag is set.  This very string is
also stored in each result's `query_text` field. -/
def searchQueryOf (query : Str) (normalized : Bool) : Str :=
  if normalized then normalize_arabic_text (pyStrip query) else pyStrip query

/-- The per-verse accumulation loop of `fuzzy_search_text`: run the substring
matcher on each verse's selected text and pack hits into results. -/
def fuzzyResultsOf (tset tsort : Str → Str → ℚ) (search_query : Str)
    (verses : List QuranVerse) (threshold : ℚ) (normalized : Bool) :
    List FuzzySearchResult :=
  verses.filterMap (fun verse =>
    (fuzzy_substring_search tset tsort search_query
        (if normalized then verse.text_normalized else verse.text) none threshold).map
      (fun m => ⟨verse, m.1, m.2.1, m.2.2.1, m.2.2.2, search_query⟩))

/-- Embedding of `fuzzy_search_text`: strip and optionally normalize the
query, run the substring matcher on each verse's selected text, sort by
similarity descending, and truncate when a truthy cap is given. -/
def fuzzy_search_text (tset tsort : Str → Str → ℚ) (query : Str)
    (verses : List QuranVerse) (threshold : ℚ) (normalized : Bool)
    (max_results : Option Nat) : List FuzzySearchResult :=
  if pyStrip query = [] then []
  else if maxTruthy max_results && decide ((sortDescBy (fun r => r.similarity)
      (fuzzyResultsOf tset tsort (searchQueryOf query normalized) verses threshold
        normalized)).length > max_results.getD 0) then
    (sortDescBy (fun r => r.similarity)
      (fuzzyResultsOf tset tsort (searchQueryOf query normalized) verses threshold
        normalized)).take (max_results.getD 0)
  else
    sortDescBy (fun r => r.similarity)
      (fuzzyResultsOf tset tsort (searchQueryOf query normalized) verses threshold
        normalized)

/-- Embedding of `QuranDatabase.fuzzy_search`: fuzzy-search the whole
database (`get_all_verses` can raise only on a corrupted cache, modeled by
`none`). -/
def fuzzy_search (tset tsort : Str → Str → ℚ) (db : QuranDatabase) (query : Str)
    (threshold : ℚ) (normalized : Bool) (max_results : Option Nat) :
    Option (List FuzzySearchResult) :=
  (get_all_verses db).map
    (fun vs => fuzzy_search_text tset tsort query vs threshold normalized max_results)

/-! Concrete model implementations of the rapidfuzz scorers, used to evaluate
counterexamples and witnesses on concrete inputs. -/

/-- One cell chain of the LCS row update. -/
def lcsStepAux (c : Char) : Str → List Nat → Nat → Nat → List Nat
  | [], _, _, _ => []
  | b :: bs, pr, diag, left =>
    match pr with
    | p :: ps =>
      let nj := if c = b then diag + 1 else max left p
      nj :: lcsStepAux c bs ps p nj
    | [] => []

/-- One row of the longest-common-subsequence dynamic program. -/
def lcsRow (c : Char) (b : Str) (prevRow : List Nat) : List Nat :=
  match prevRow with
  | p0 :: rest => 0 :: lcsStepAux c b rest p0 0
  | [] => []

/-- Length of the longest common subsequence of two strings. -/
def lcsLen (a b : Str) : Nat :=
  (a.foldl (fun row c => lcsRow c b row) (List.replicate (b.length + 1) 0)).getLastD 0

/-- Model of `rapidfuzz.fuzz.ratio`: normalized indel similarity on a 0..100
scale, equal to 200·LCS/(len1+len2), and 100 when both strings are empty. -/
def ratioQ (a b : Str) : ℚ :=
  if a.length + b.length = 0 then 100
  else (200 * lcsLen a b : ℚ) / (a.length + b.length)

/-- Lexicographic comparison of strings by code point. -/
def lexLe : Str → Str → Bool
  | [], _ => true
  | _ :: _, [] => false
  | a :: as, b :: bs =>
    if a.toNat < b.toNat then true else if b.toNat < a.toNat then false else lexLe as bs

/-- Sorted insertion for `sortLex`. -/
def insertLex (x : Str) : List Str → List Str
  | [] => [x]
  | y :: ys => if lexLe x y then x :: y :: ys else y :: insertLex x ys

/-- Sort a token list lexicographically (Python `sorted`). -/
def sortLex (l : List Str) : List Str := l.foldr insertLex []

/-- Model of `rapidfuzz.fuzz.token_sort_ratio`: ratio of the
whitespace-tokenized, sorted and re-joined strings. -/
def tokenSortRatioQ (a b : Str) : ℚ :=
  ratioQ (joinWords (sortLex (splitWs a))) (joinWords (sortLex (splitWs b)))

/-- Model of `rapidfuzz.fuzz.token_set_ratio`: compare the sorted unique
token sets; 100 when one side's tokens are contained in the other's and the
intersection is non-empty, else the best ratio among
intersection-vs-intersection-plus-difference combinations. -/
def tokenSetRatioQ (a b : Str) : ℚ :=
  let ta := sortLex (splitWs a).dedup
  let tb := sortLex (splitWs b).dedup
  let inter := ta.filter (fun t => t ∈ tb)
  let dab := ta.filter (fun t => t ∉ tb)
  let dba := tb.filter (fun t => t ∉ ta)
  if inter ≠ [] ∧ (dab = [] ∨ dba = []) then 100
  else
    let sect := joinWords inter
    let sab := if sect = [] then joinWords dab
               else if dab = [] then sect else sect ++ ' ' :: joinWords dab
    let sba := if sect = [] then joinWords dba
               else if dba = [] then sect else sect ++ ' ' :: joinWords dba
    max (max (ratioQ sect sab) (ratioQ sect sba)) (ratioQ sab sba)

/-! Span validity of the fuzzy matcher (claim C5). -/

/-- A fold step that preserves a predicate for every list element preserves
it across the whole fold. -/
theorem foldl_preserves (P : β → Prop) (f : β → α → β) :
    ∀ (l : List α), (∀ b a, a ∈ l → P b → P (f b a)) → ∀ b, P b → P (l.foldl f b)
  | [], _, _, hb => hb
  | x :: xs, h, b, hb =>
    foldl_preserves P f xs (fun b a ha => h b a (List.mem_cons_of_mem _ ha)) _
      (h b x (List.mem_cons_self _ _) hb)

/-- Invariant of the best-match state: the score is non-negative, and once
any window has scored strictly positively the recorded range is a
non-degenerate in-bounds word span. -/
def fssInv (len : Nat) (st : FSSState) : Prop :=
  0 ≤ st.score ∧ (0 < st.score → st.range1 < st.range2 ∧ st.range2 ≤ len)

/-- One window evaluation preserves the state invariant (for any window of
size at least one). -/
theorem fssStep_inv (scorer : Str → Str → ℚ) (query : Str) (textWords : List Str)
    (st : FSSState) (i cw : Nat) (hcw : 1 ≤ cw) (h : fssInv textWords.length st) :
    fssInv textWords.length (fssStep scorer query textWords st i cw) := by
  unfold fssInv at h ⊢
  unfold fssStep
  split
  · exact h
  next hle =>
    split
    next hgt =>
      refine ⟨le_of_lt (lt_of_le_of_lt h.1 hgt), fun _ => ⟨?_, ?_⟩⟩
      · show i < i + cw
        omega
      · show i + cw ≤ textWords.length
        omega
    · exact h

/-- One full scan preserves the state invariant. -/
theorem fssLoop_inv (scorer : Str → Str → ℚ) (query : Str) (textWords : List Str)
    (q_len ws maxStart : Nat) (init : FSSState)
    (hq : 1 ≤ q_len) (hws : 1 ≤ ws) (hms : maxStart ≤ textWords.length)
    (hinit : fssInv textWords.length init) :
    fssInv textWords.length (fssLoop scorer query textWords q_len ws maxStart init) := by
  unfold fssLoop
  refine foldl_preserves _ _ _ ?_ init hinit
  intro b i hi hb
  refine foldl_preserves _ _ _ ?_ b hb
  intro b2 cw hcw hb2
  have hi' : i < maxStart := List.mem_range.mp hi
  have hcw1 : 1 ≤ cw := by
    rcases List.mem_cons.mp hcw with rfl | hcw
    · exact hq
    · rcases List.mem_cons.mp hcw with rfl | hcw
      · exact le_min hws (by omega)
      · exact absurd hcw (List.not_mem_nil _)
  exact fssStep_inv _ _ _ _ _ _ hcw1 hb2

/-- The double scan of `fuzzy_substring_search` satisfies the invariant. -/
theorem fssCore_inv (tset tsort : Str → Str → ℚ) (query : Str)
    (textWords : List Str) (q_len ws : Nat) (hq : 1 ≤ q_len) (hws : 1 ≤ ws) :
    fssInv textWords.length (fssCore tset tsort query textWords q_len ws) := by
  have hms : fssMaxStart textWords.length q_len ≤ textWords.length := by
    unfold fssMaxStart; split <;> omega
  unfold fssCore
  refine fssLoop_inv _ _ _ _ _ _ _ hq hws hms ?_
  refine fssLoop_inv _ _ _ _ _ _ _ hq hws hms ?_
  exact ⟨le_refl 0, fun h => absurd h (lt_irrefl 0)⟩

/-- The effective window size is always at least one. -/
theorem fssWindowSize_pos (window_size : Option Nat) (q_len : Nat) :
    1 ≤ fssWindowSize window_size q_len := by
  cases window_size with
  | none => exact le_trans (by omega) (Nat.le_max_left _ _)
  | some n =>
    show 1 ≤ if n ≠ 0 then n else max (q_len + 3) (q_len * 2)
    split
    next hn => omega
    next hn => exact le_trans (by omega) (Nat.le_max_left _ _)

/-- Any hit of the substring matcher at a strictly positive threshold is a
non-degenerate in-bounds word span of the searched text. -/
theorem fss_some_valid (tset tsort : Str → Str → ℚ) (query text : Str)
    (window_size : Option Nat) (threshold : ℚ) (m : Nat × Nat × ℚ × Str)
    (hth : 0 < threshold)
    (h : fuzzy_substring_search tset tsort query text window_size threshold = some m) :
    m.1 < m.2.1 ∧ m.2.1 ≤ (splitWs text).length := by
  unfold fuzzy_substring_search at h
  split at h
  · exact absurd h (by simp)
  split at h
  next h1 h2 => exact absurd h (by simp)
  next h1 h2 =>
    split at h
    · exact absurd h (by simp)
    next h3 =>
      have hq : 1 ≤ (splitWs query).length := by
        rcases Nat.eq_zero_or_pos (splitWs query).length with h0 | h0
        · exact absurd (Or.inl h0) h2
        · exact h0
      have hinv := fssCore_inv tset tsort query (splitWs text) (splitWs query).length
        (fssWindowSize window_size (splitWs query).length) hq
        (fssWindowSize_pos window_size (splitWs query).length)
      have hpos : 0 < (fssCore tset tsort query (splitWs text) (splitWs query).length
          (fssWindowSize window_size (splitWs query).length)).score :=
        lt_of_lt_of_le hth (not_lt.mp h3)
      injection h with h
      subst h
      exact hinv.2 hpos

/-- Stable descending insertion permutes the inserted element in. -/
theorem insertDescBy_perm (f : α → ℚ) (x : α) (l : List α) :
    (insertDescBy f x l).Perm (x :: l) := by
  induction l with
  | nil => exact List.Perm.refl _
  | cons y ys ih =>
    unfold insertDescBy
    split
    · exact List.Perm.refl _
    · exact (ih.cons y).trans (List.Perm.swap x y ys)

/-- The descending sort is a permutation of its input. -/
theorem sortDescBy_perm (f : α → ℚ) (l : List α) : (sortDescBy f l).Perm l := by
  induction l with
  | nil => exact List.Perm.refl _
  | cons x xs ih => exact (insertDescBy_perm f x _).trans (ih.cons x)

/-- Single-verse concrete database for fuzzy-search evaluations. -/
def db1 : QuranDatabase :=
  { surahs := [(1, { number := 1, ayahs := [(1, verse11)] })] }

/-- C5 (amended): for any scorers and any STRICTLY positive threshold, every
result of `fuzzy_search` has a word span with `start_word < end_word` bounded
by the token count of the searched unit text.  (At threshold 0 the claim
fails: a verse that never scores above 0 is still reported, carrying the
initial degenerate span (0, 0).) -/
theorem c5_fuzzy_span_valid_amended (tset tsort : Str → Str → ℚ)
    (db : QuranDatabase) (query : Str) (threshold : ℚ) (normalized : Bool)
    (max_results : Option Nat) (rs : List FuzzySearchResult) (r : FuzzySearchResult)
    (hth : 0 < threshold)
    (hdb : fuzzy_search tset tsort db query threshold normalized max_results = some rs)
    (hr : r ∈ rs) :
    r.start_word < r.end_word ∧
      r.end_word ≤ (splitWs (if normalized then r.verse.text_normalized
        else r.verse.text)).length := by
  unfold fuzzy_search at hdb
  rcases Option.map_eq_some'.mp hdb with ⟨vs, hvs, rfl⟩
  unfold fuzzy_search_text at hr
  split at hr
  · exact absurd hr (List.not_mem_nil r)
  have hr3 : r ∈ fuzzyResultsOf tset tsort (searchQueryOf query normalized) vs
      threshold normalized := by
    have hr2 : r ∈ sortDescBy (fun r => r.similarity)
        (fuzzyResultsOf tset tsort (searchQueryOf query normalized) vs
          threshold normalized) := by
      split at hr
      · exact List.mem_of_mem_take hr
      · exact hr
    exact ((sortDescBy_perm _ _).mem_iff).mp hr2
  rcases List.mem_filterMap.mp hr3 with ⟨verse, hv, hmap⟩
  rcases Option.map_eq_some'.mp hmap with ⟨m, hm, hrdef⟩
  have hspan := fss_some_valid tset tsort (searchQueryOf query normalized)
    (if normalized then verse.text_normalized else verse.text) none threshold m hth hm
  subst hrdef
  exact hspan

set_option maxRecDepth 100000 in
/-- Counterexample to C5 as stated for threshold 0: on the single-verse
database whose verse is `"ا"`, the query `"ب"` never scores above 0, yet
`fuzzy_search` at threshold 0 reports the verse with the degenerate span
`start_word = end_word = 0`. -/
theorem c5_counterexample :
    fuzzy_search tokenSetRatioQ tokenSortRatioQ db1 [baChar] 0 true none =
      some [⟨verse11, 0, 0, 0, [], [baChar]⟩] ∧
    ¬ ((⟨verse11, 0, 0, 0, [], [baChar]⟩ : FuzzySearchResult).start_word <
       (⟨verse11, 0, 0, 0, [], [baChar]⟩ : FuzzySearchResult).end_word) :=
  ⟨by with_unfolding_all decide, by decide⟩

set_option maxRecDepth 100000 in
/-- Witness for the amended C5 at a concrete input: query `"ا"` on `db1` at
threshold 0.7 yields one result, whose span the theorem validates. -/
theorem c5_witness :
    (0 : ℚ) < 7/10 ∧
    fuzzy_search tokenSetRatioQ tokenSortRatioQ db1 [alefChar] (7/10) true none =
      some [⟨verse11, 0, 1, 1, [alefChar], [alefChar]⟩] ∧
    ((⟨verse11, 0, 1, 1, [alefChar], [alefChar]⟩ : FuzzySearchResult).start_word <
        (⟨verse11, 0, 1, 1, [alefChar], [alefChar]⟩ : FuzzySearchResult).end_word ∧
      (⟨verse11, 0, 1, 1, [alefChar], [alefChar]⟩ : FuzzySearchResult).end_word ≤
        (splitWs (if true then
          (⟨verse11, 0, 1, 1, [alefChar], [alefChar]⟩ : FuzzySearchResult).verse.text_normalized
          else (⟨verse11, 0, 1, 1, [alefChar],
            [alefChar]⟩ : FuzzySearchResult).verse.text)).length) :=
  ⟨by with_unfolding_all decide, by with_unfolding_all decide,
    c5_fuzzy_span_valid_amended tokenSetRatioQ tokenSortRatioQ db1 [alefChar] (7/10)
      true none [⟨verse11, 0, 1, 1, [alefChar], [alefChar]⟩]
      ⟨verse11, 0, 1, 1, [alefChar], [alefChar]⟩ (by with_unfolding_all decide)
      (by with_unfolding_all decide) (List.mem_singleton.mpr rfl)⟩

/-! Embedding of the sliding-window multi-ayah search of `text_utils.py`.
The `rapidfuzz.fuzz.partial_ratio_alignment` scorer is the parameter
`align`; `none` models both a raised exception and a falsy alignment.  The
`while` loop is given explicit fuel: `error` models a run that diverges or
raises an uncaught lookup error. -/

/-- Embedding of the `MultiAyahMatch` dataclass. -/
structure MultiAyahMatch where
  verses : List QuranVerse
  similarity : ℚ
  matched_text : Str
  query_text : Str
  start_surah : Nat
  start_ayah : Nat
  start_word : Nat
  end_surah : Nat
  end_ayah : Nat
  end_word : Nat
deriving DecidableEq, Repr

/-- Result of `rapidfuzz.fuzz.partial_ratio_alignment(query, dest)`: the
score and the matched character span in the destination text. -/
structure PRAlignment where
  score : ℚ
  dest_start : Nat
  dest_end : Nat
deriving DecidableEq, Repr

/-- Python `bisect.bisect_right` on an ascending list: the number of
elements not exceeding the probe. -/
def bisectRight (l : List Nat) (x : Nat) : Nat := l.countP (fun y => y ≤ x)

/-- Character offset of each word in the corresponding space-joined text. -/
def wordCharOffsets (segs : List Str) : List Nat :=
  (segs.foldl (fun acc w => (acc.1 ++ [acc.2], acc.2 + w.length + 1))
    (([], 0) : List Nat × Nat)).1

/-- The word lists of the selected texts of the verses, concatenated. -/
def textSegmentsOf (verses : List QuranVerse) (normalized : Bool) : List Str :=
  verses.flatMap (fun v => splitWs (if normalized then v.text_normalized else v.text))

/-- The word-to-verse map: one `(verse, word index in verse)` entry per
word of the concatenated text. -/
def verseMapOf (verses : List QuranVerse) (normalized : Bool) : List (QuranVerse × Nat) :=
  verses.flatMap (fun v =>
    (List.range (splitWs (if normalized then v.text_normalized else v.text)).length).map
      (fun w => (v, w)))

/-- The word-to-verse map built from the cached sorted ayah reference list
(`use_cache` path); `none` models the `ValueError` of a dangling reference. -/
def verseMapOfRefs (db : QuranDatabase) (normalized : Bool) :
    List (Nat × Nat) → Option (List (QuranVerse × Nat))
  | [] => some []
  | r :: rest =>
    match get_verse db r.1 r.2 with
    | none => none
    | some v =>
      (verseMapOfRefs db normalized rest).map
        (fun tail =>
          ((List.range (splitWs (if normalized then v.text_normalized
            else v.text)).length).map (fun w => (v, w))) ++ tail)

/-- The per-reference word list rebuild used when the cached corpus word
list for the selected normalization is empty. -/
def segsOfRefs (db : QuranDatabase) (normalized : Bool) :
    List (Nat × Nat) → Option (List Str)
  | [] => some []
  | r :: rest =>
    match get_verse db r.1 r.2 with
    | none => none
    | some v =>
      (segsOfRefs db normalized rest).map
        (fun tail => splitWs (if normalized then v.text_normalized else v.text) ++ tail)

/-- The six-coordinate boundary key used for sliding-window deduplication. -/
def matchKey (m : MultiAyahMatch) : Nat × Nat × Nat × Nat × Nat × Nat :=
  (m.start_surah, m.start_ayah, m.start_word, m.end_surah, m.end_ayah, m.end_word)

/-- Consecutive deduplication scan (the `current_verse` accumulation). -/
def collectDistinctAux (cur : QuranVerse) : List QuranVerse → List QuranVerse
  | [] => []
  | v :: rest => if v = cur then collectDistinctAux cur rest
                 else v :: collectDistinctAux v rest

/-- Distinct verses of a verse-map slice, in order of first appearance of
each consecutive run. -/
def collectDistinct : List QuranVerse → List QuranVerse
  | [] => []
  | v :: rest => v :: collectDistinctAux v rest

/-- Map a character position back to a word index, exactly as the source:
`bisect_right(offsets, c) - 1`, clamped into `[0, nSegs - 1]`. -/
def wordIdxAt (offsets : List Nat) (nSegs c : Nat) : Nat :=
  min (bisectRight offsets c - 1) (nSegs - 1)

/-- The match object emitted for one accepted window of the sliding loop. -/
def mkSlidingMatch (search_query : Str) (segs : List Str)
    (vm : List (QuranVerse × Nat)) (score : ℚ) (swi ewi : Nat)
    (sv : QuranVerse) (sw : Nat) (ev : QuranVerse) (ew : Nat) : MultiAyahMatch :=
  ⟨collectDistinct (((vm.drop swi).take (ewi + 1 - swi)).map Prod.fst), score,
   joinWords ((segs.drop swi).take (ewi + 1 - swi)), search_query,
   sv.surah_number, sv.ayah_number, sw, ev.surah_number, ev.ayah_number, ew + 1⟩

/-- The iterative match loop (`while start_char < text_len`) of
`sliding_window_multi_ayah_search`. -/
def slidingLoop (align : Str → Str → Option PRAlignment) (search_query fullText : Str)
    (segs : List Str) (offsets : List Nat) (vm : List (QuranVerse × Nat))
    (threshold : ℚ) (max_results : Option Nat) :
    Nat → Nat → List MultiAyahMatch → List (Nat × Nat × Nat × Nat × Nat × Nat) →
    Except Unit (List MultiAyahMatch)
  | 0, _, _, _ => Except.error ()
  | fuel + 1, start_char, results, seen =>
    if start_char ≥ fullText.length then Except.ok results
    else
      match align search_query (fullText.drop start_char) with
      | none => Except.ok results
      | some al =>
        if al.score < threshold then Except.ok results
        else
          match vm.get? (wordIdxAt offsets segs.length (start_char + al.dest_start)),
                vm.get? (wordIdxAt offsets segs.length (start_char + al.dest_end - 1)) with
          | some (sv, sw), some (ev, ew) =>
            if (sv.surah_number, sv.ayah_number, sw,
                ev.surah_number, ev.ayah_number, ew + 1) ∈ seen then
              slidingLoop align search_query fullText segs offsets vm threshold
                max_results fuel (start_char + al.dest_end) results seen
            else
              if maxTruthy max_results ∧ max_results.getD 0 ≤
                  (results ++ [mkSlidingMatch search_query segs vm al.score
                    (wordIdxAt offsets segs.length (start_char + al.dest_start))
                    (wordIdxAt offsets segs.length (start_char + al.dest_end - 1))
                    sv sw ev ew]).length then
                Except.ok (results ++ [mkSlidingMatch search_query segs vm al.score
                  (wordIdxAt offsets segs.length (start_char + al.dest_start))
                  (wordIdxAt offsets segs.length (start_char + al.dest_end - 1))
                  sv sw ev ew])
              else
                slidingLoop align search_query fullText segs offsets vm threshold
                  max_results fuel (start_char + al.dest_end)
                  (results ++ [mkSlidingMatch search_query segs vm al.score
                    (wordIdxAt offsets segs.length (start_char + al.dest_start))
                    (wordIdxAt offsets segs.length (start_char + al.dest_end - 1))
                    sv sw ev ew])
                  ((sv.surah_number, sv.ayah_number, sw,
                    ev.surah_number, ev.ayah_number, ew + 1) :: seen)
          | _, _ => Except.error ()

/-- The resolved database of the sliding search: when neither verses nor a
database is supplied the global database is loaded. -/
def slidingDbResolved (versesOpt : Option (List QuranVerse))
    (dbOpt : Option QuranDatabase) (globalDB : QuranDatabase) :
    Option QuranDatabase :=
  match versesOpt, dbOpt with
  | none, none => some globalDB
  | _, _ => dbOpt

/-- The searched verse list: as given, else all verses of the resolved
database. -/
def slidingVerses (versesOpt : Option (List QuranVerse))
    (dbOpt : Option QuranDatabase) (globalDB : QuranDatabase) :
    Except Unit (List QuranVerse) :=
  match versesOpt with
  | some vs => Except.ok vs
  | none =>
    match slidingDbResolved versesOpt dbOpt globalDB with
    | some db =>
      match get_all_verses db with
      | some vs => Except.ok vs
      | none => Except.error ()
    | none => Except.error ()

/-- The `use_cache` condition of the sliding search: searching the whole
database with a cache-enabled database whose (diacritic) corpus word list
is non-empty. -/
def slidingUseCache (versesOpt : Option (List QuranVerse))
    (dbOpt : Option QuranDatabase) (globalDB : QuranDatabase) : Bool :=
  versesOpt.isNone &&
    match slidingDbResolved versesOpt dbOpt globalDB with
    | some db => db._cache_enabled && !db.corpus_words_list.isEmpty
    | none => false

/-- Text segments and verse map of the sliding search: the cached corpus
word list plus a reference-built verse map on the cache path (with the
cached-but-empty segment rebuild), the per-verse build otherwise. -/
def slidingSegsAndMap (versesOpt : Option (List QuranVerse))
    (dbOpt : Option QuranDatabase) (globalDB : QuranDatabase)
    (verses : List QuranVerse) (normalized : Bool) :
    Except Unit (List Str × List (QuranVerse × Nat)) :=
  if slidingUseCache versesOpt dbOpt globalDB then
    match slidingDbResolved versesOpt dbOpt globalDB with
    | some db =>
      match verseMapOfRefs db normalized db.sorted_ayahs_ref_list with
      | none => Except.error ()
      | some vm =>
        if (if normalized then db.corpus_words_list_normalized
            else db.corpus_words_list) = [] then
          match segsOfRefs db normalized db.sorted_ayahs_ref_list with
          | none => Except.error ()
          | some segs => Except.ok (segs, vm)
        else
          Except.ok ((if normalized then db.corpus_words_list_normalized
            else db.corpus_words_list), vm)
    | none => Except.error ()
  else
    Except.ok (textSegmentsOf verses normalized, verseMapOf verses normalized)

/-- `sliding_window_multi_ayah_search` up to but excluding the final
long-query refinement guard. -/
def slidingNoRefine (align : Str → Str → Option PRAlignment) (query : Str)
    (versesOpt : Option (List QuranVerse)) (threshold : ℚ) (normalized : Bool)
    (max_results : Option Nat) (dbOpt : Option QuranDatabase)
    (globalDB : QuranDatabase) (fuel : Nat) : Except Unit (List MultiAyahMatch) :=
  if pyStrip query = [] then Except.ok []
  else
    match slidingVerses versesOpt dbOpt globalDB with
    | Except.error e => Except.error e
    | Except.ok verses =>
      if verses = [] then Except.ok []
      else if searchQueryOf query normalized = [] then Except.ok []
      else
        match slidingSegsAndMap versesOpt dbOpt globalDB verses normalized with
        | Except.error e => Except.error e
        | Except.ok (segs, vm) =>
          if segs = [] then Except.ok []
          else
            match slidingLoop align (searchQueryOf query normalized) (joinWords segs)
                segs (wordCharOffsets segs) vm threshold max_results fuel 0 [] [] with
            | Except.error e => Except.error e
            | Except.ok results =>
              Except.ok (sortDescBy (fun m => m.similarity) results)

/-- Embedding of `refine_sliding_window_result`.  The recursive probe
searches call the refinement-free search: their queries are at most 30
characters long, so their own refinement guard can never be taken.  Every
internal failure (missing boundary, empty probe results, failed shrink
check, raised exception) returns the original match unchanged. -/
def refine_sliding_window_result (align : Str → Str → Option PRAlignment)
    (query : Str) (best : MultiAyahMatch) (threshold : ℚ) (normalized : Bool)
    (dbOpt : Option QuranDatabase) (globalDB : QuranDatabase) (fuel : Nat) :
    MultiAyahMatch :=
  match dbOpt with
  | none => best
  | some db =>
    if query.length ≤ 500 then best
    else
      match get_all_verses db with
      | none => best
      | some allv =>
        match allv.findIdx? (fun v => decide (v.surah_number = best.start_surah) &&
                decide (v.ayah_number = best.start_ayah)),
              allv.findIdx? (fun v => decide (v.surah_number = best.end_surah) &&
                decide (v.ayah_number = best.end_ayah)) with
        | some start_idx, some end_idx =>
          match slidingNoRefine align (query.take 30)
              (some ((allv.drop (start_idx - 5)).take
                (min allv.length (start_idx + 6) - (start_idx - 5))))
              threshold normalized (some 1) (some db) globalDB fuel,
            slidingNoRefine align (query.drop (query.length - 30))
              (some ((allv.drop (end_idx - 5)).take
                (min allv.length (end_idx + 6) - (end_idx - 5))))
              threshold normalized (some 1) (some db) globalDB fuel with
          | Except.ok (rs0 :: _), Except.ok (re0 :: _) =>
            if (rs0.start_surah > best.start_surah ∨
                  (rs0.start_surah = best.start_surah ∧
                   rs0.start_ayah ≥ best.start_ayah)) ∧
               (re0.end_surah < best.end_surah ∨
                  (re0.end_surah = best.end_surah ∧
                   re0.end_ayah ≤ best.end_ayah)) then
              match get_partial_verses db (rs0.start_surah, rs0.start_ayah)
                  (re0.end_surah, re0.end_ayah) with
              | Except.error _ => best
              | Except.ok refined_verses =>
                ⟨refined_verses, best.similarity,
                 joinWords (refined_verses.map (fun v =>
                   if normalized then v.text_normalized else v.text)),
                 best.query_text,
                 rs0.start_surah, rs0.start_ayah, rs0.start_word,
                 re0.end_surah, re0.end_ayah, re0.end_word⟩
            else best
          | _, _ => best
        | _, _ => best

/-- Embedding of `sliding_window_multi_ayah_search`, including the final
long-query refinement of the top result. -/
def sliding_window_multi_ayah_search (align : Str → Str → Option PRAlignment)
    (query : Str) (versesOpt : Option (List QuranVerse)) (threshold : ℚ)
    (normalized : Bool) (max_results : Option Nat) (dbOpt : Option QuranDatabase)
    (globalDB : QuranDatabase) (fuel : Nat) : Except Unit (List MultiAyahMatch) :=
  match slidingNoRefine align query versesOpt threshold normalized max_results dbOpt
      globalDB fuel with
  | Except.error e => Except.error e
  | Except.ok results =>
    if 500 < query.length ∧ results ≠ [] ∧
        (slidingDbResolved versesOpt dbOpt globalDB).isSome then
      match results with
      | [] => Except.ok []
      | r0 :: rest =>
        Except.ok (refine_sliding_window_result align query r0 threshold normalized
          (slidingDbResolved versesOpt dbOpt globalDB) globalDB fuel :: rest)
    else Except.ok results

/-- Embedding of the public `search_sliding_window` convenience function:
it fetches all verses itself and passes no database to the sliding
search. -/
def search_sliding_window (align : Str → Str → Option PRAlignment)
    (globalDB : QuranDatabase) (query : Str) (threshold : ℚ) (normalized : Bool)
    (max_results : Option Nat) (fuel : Nat) : Except Unit (List MultiAyahMatch) :=
  match get_all_verses globalDB with
  | none => Except.error ()
  | some all_verses =>
    sliding_window_multi_ayah_search align query (some all_verses) threshold
      normalized max_results none globalDB fuel

/-- Return value of `smart_search`: which method produced the results, the
results themselves (of that method's result type), and their count. -/
inductive SmartSearchResult where
  | exact : List QuranVerse → Nat → SmartSearchResult
  | fuzzy : List FuzzySearchResult → Nat → SmartSearchResult
  | sliding_window : List MultiAyahMatch → Nat → SmartSearchResult
  | noneFound : SmartSearchResult
deriving DecidableEq, Repr

/-- Embedding of the public `smart_search` cascade: exact search first, then
fuzzy, then sliding window, else the empty `none` result. -/
def smart_search (tset tsort : Str → Str → ℚ) (align : Str → Str → Option PRAlignment)
    (globalDB : QuranDatabase) (query : Str) (threshold sliding_threshold : ℚ)
    (normalized : Bool) (max_results : Option Nat) (fuel : Nat) :
    Except Unit SmartSearchResult :=
  if pyStrip query = [] then Except.ok SmartSearchResult.noneFound
  else if search_text globalDB query normalized ≠ [] then
    Except.ok (SmartSearchResult.exact
      (if maxTruthy max_results
        then (search_text globalDB query normalized).take (max_results.getD 0)
        else search_text globalDB query normalized)
      (if maxTruthy max_results
        then (search_text globalDB query normalized).take (max_results.getD 0)
        else search_text globalDB query normalized).length)
  else
    match fuzzy_search tset tsort globalDB query threshold normalized max_results with
    | none => Except.error ()
    | some fr =>
      if fr ≠ [] then Except.ok (SmartSearchResult.fuzzy fr fr.length)
      else
        match search_sliding_window align globalDB query sliding_threshold normalized
            max_results fuel with
        | Except.error e => Except.error e
        | Except.ok sr =>
          if sr ≠ [] then
            Except.ok (SmartSearchResult.sliding_window sr sr.length)
          else Except.ok SmartSearchResult.noneFound

/-! `max_results = 0` is falsy at every cap site (claim C10). -/

/-- The sliding loop never truncates under a cap of 0: it behaves exactly
as with no cap. -/
theorem slidingLoop_zero_eq_none (align : Str → Str → Option PRAlignment)
    (sq ft : Str) (segs : List Str) (offsets : List Nat)
    (vm : List (QuranVerse × Nat)) (th : ℚ) :
    ∀ fuel sc rs seen,
      slidingLoop align sq ft segs offsets vm th (some 0) fuel sc rs seen =
      slidingLoop align sq ft segs offsets vm th none fuel sc rs seen := by
  intro fuel
  induction fuel with
  | zero => intro sc rs seen; rfl
  | succ n ih =>
    intro sc rs seen
    unfold slidingLoop
    split
    · rfl
    · split
      · rfl
      · split
        · rfl
        · split
          · split
            · exact ih _ _ _
            · rw [if_neg (by simp [maxTruthy]), if_neg (by simp [maxTruthy])]
              exact ih _ _ _
          · rfl

/-- `slidingNoRefine` ignores a cap of 0. -/
theorem slidingNoRefine_zero_eq_none (align : Str → Str → Option PRAlignment)
    (query : Str) (versesOpt : Option (List QuranVerse)) (th : ℚ) (nm : Bool)
    (dbOpt : Option QuranDatabase) (g : QuranDatabase) (fuel : Nat) :
    slidingNoRefine align query versesOpt th nm (some 0) dbOpt g fuel =
    slidingNoRefine align query versesOpt th nm none dbOpt g fuel := by
  unfold slidingNoRefine
  split
  · rfl
  · split
    · rfl
    · split
      · rfl
      · split
        · rfl
        · split
          · rfl
          · split
            · rfl
            · rw [slidingLoop_zero_eq_none]

/-- `sliding_window_multi_ayah_search` ignores a cap of 0. -/
theorem sliding_zero_eq_none (align : Str → Str → Option PRAlignment)
    (query : Str) (versesOpt : Option (List QuranVerse)) (th : ℚ) (nm : Bool)
    (dbOpt : Option QuranDatabase) (g : QuranDatabase) (fuel : Nat) :
    sliding_window_multi_ayah_search align query versesOpt th nm (some 0) dbOpt g fuel =
    sliding_window_multi_ayah_search align query versesOpt th nm none dbOpt g fuel := by
  unfold sliding_window_multi_ayah_search
  rw [slidingNoRefine_zero_eq_none]

/-- `search_sliding_window` ignores a cap of 0. -/
theorem search_sliding_window_zero_eq_none (align : Str → Str → Option PRAlignment)
    (g : QuranDatabase) (query : Str) (th : ℚ) (nm : Bool) (fuel : Nat) :
    search_sliding_window align g query th nm (some 0) fuel =
    search_sliding_window align g query th nm none fuel := by
  unfold search_sliding_window
  cases get_all_verses g with
  | none => rfl
  | some all_verses => exact sliding_zero_eq_none align query (some all_verses) th nm none g fuel

/-- `fuzzy_search` ignores a cap of 0. -/
theorem fuzzy_search_zero_eq_none (tset tsort : Str → Str → ℚ) (db : QuranDatabase)
    (query : Str) (th : ℚ) (nm : Bool) :
    fuzzy_search tset tsort db query th nm (some 0) =
    fuzzy_search tset tsort db query th nm none := rfl

/-- `smart_search` ignores a cap of 0. -/
theorem smart_search_zero_eq_none (tset tsort : Str → Str → ℚ)
    (align : Str → Str → Option PRAlignment) (g : QuranDatabase) (query : Str)
    (th sth : ℚ) (nm : Bool) (fuel : Nat) :
    smart_search tset tsort align g query th sth nm (some 0) fuel =
    smart_search tset tsort align g query th sth nm none fuel := by
  unfold smart_search
  split
  · rfl
  · split
    · rfl
    · rw [fuzzy_search_zero_eq_none, search_sliding_window_zero_eq_none]

/-- C10: a `max_results` argument of 0 is falsy in Python, so each public
entry point treats it exactly as `None` (no limit): `fuzzy_search` returns
every match above the threshold untruncated, `smart_search` returns the
full exact-search list, and the sliding-window search does not stop
early. -/
theorem c10_zero_max_results_means_no_limit :
    (∀ (tset tsort : Str → Str → ℚ) (db : QuranDatabase) (query : Str)
        (threshold : ℚ) (normalized : Bool),
      fuzzy_search tset tsort db query threshold normalized (some 0) =
      fuzzy_search tset tsort db query threshold normalized none) ∧
    (∀ (tset tsort : Str → Str → ℚ) (align : Str → Str → Option PRAlignment)
        (globalDB : QuranDatabase) (query : Str) (threshold sliding_threshold : ℚ)
        (normalized : Bool) (fuel : Nat),
      smart_search tset tsort align globalDB query threshold sliding_threshold
        normalized (some 0) fuel =
      smart_search tset tsort align globalDB query threshold sliding_threshold
        normalized none fuel) ∧
    (∀ (align : Str → Str → Option PRAlignment) (query : Str)
        (versesOpt : Option (List QuranVerse)) (threshold : ℚ) (normalized : Bool)
        (dbOpt : Option QuranDatabase) (globalDB : QuranDatabase) (fuel : Nat),
      sliding_window_multi_ayah_search align query versesOpt threshold normalized
        (some 0) dbOpt globalDB fuel =
      sliding_window_multi_ayah_search align query versesOpt threshold normalized
        none dbOpt globalDB fuel) :=
  ⟨fun tset tsort db query th nm => fuzzy_search_zero_eq_none tset tsort db query th nm,
   fun tset tsort align g q th sth nm fuel =>
     smart_search_zero_eq_none tset tsort align g q th sth nm fuel,
   fun align q vOpt th nm dbOpt g fuel =>
     sliding_zero_eq_none align q vOpt th nm dbOpt g fuel⟩

/-- C2: for a non-whitespace query, when exact search returns a non-empty
verse list, `smart_search` reports the exact method with exactly that list,
truncated to `max_results` when a truthy cap is given, and its count. -/
theorem c2_smart_search_exact_priority (tset tsort : Str → Str → ℚ)
    (align : Str → Str → Option PRAlignment) (globalDB : QuranDatabase)
    (query : Str) (threshold sliding_threshold : ℚ) (normalized : Bool)
    (max_results : Option Nat) (fuel : Nat)
    (hq : pyStrip query ≠ [])
    (hx : search_text globalDB query normalized ≠ []) :
    smart_search tset tsort align globalDB query threshold sliding_threshold
      normalized max_results fuel =
    Except.ok (SmartSearchResult.exact
      (if maxTruthy max_results
        then (search_text globalDB query normalized).take (max_results.getD 0)
        else search_text globalDB query normalized)
      (if maxTruthy max_results
        then (search_text globalDB query normalized).take (max_results.getD 0)
        else search_text globalDB query normalized).length) := by
  unfold smart_search
  rw [if_neg hq, if_pos hx]

set_option maxRecDepth 100000 in
/-- Witness for C2 at a concrete database and query: the query `"ا"` has two
exact matches in `db4`, and with `max_results = 1` smart_search returns the
first, reported as an exact result of count 1. -/
theorem c2_witness :
    pyStrip [alefChar] ≠ [] ∧
    search_text db4 [alefChar] true ≠ [] ∧
    smart_search tokenSetRatioQ tokenSortRatioQ (fun _ _ => none) db4 [alefChar]
      (7/10) 80 true (some 1) 10 =
      Except.ok (SmartSearchResult.exact [verse11] 1) :=
  ⟨by decide, by decide,
   (c2_smart_search_exact_priority tokenSetRatioQ tokenSortRatioQ (fun _ _ => none)
      db4 [alefChar] (7/10) 80 true (some 1) 10 (by decide) (by decide)).trans
     (congrArg Except.ok (by with_unfolding_all decide))⟩

/-! `query_text` of fuzzy and sliding-window results (claim C8). -/

/-- Membership is invariant under the descending sort. -/
theorem mem_sortDescBy (f : α → ℚ) (l : List α) (x : α) :
    x ∈ sortDescBy f l ↔ x ∈ l := (sortDescBy_perm f l).mem_iff

/-- The sliding search applied by the public wrapper never refines: the
wrapper resolves no database (it passes verses and `db=None`), so it equals
the refinement-free search on all verses. -/
theorem search_sliding_window_eq_noRefine (align : Str → Str → Option PRAlignment)
    (g : QuranDatabase) (query : Str) (th : ℚ) (nm : Bool) (mr : Option Nat)
    (fuel : Nat) (vs : List QuranVerse) (hvs : get_all_verses g = some vs) :
    search_sliding_window align g query th nm mr fuel =
    slidingNoRefine align query (some vs) th nm mr none g fuel := by
  unfold search_sliding_window
  rw [hvs]
  show sliding_window_multi_ayah_search align query (some vs) th nm mr none g fuel = _
  unfold sliding_window_multi_ayah_search
  cases h : slidingNoRefine align query (some vs) th nm mr none g fuel with
  | error e => rfl
  | ok results =>
    have hng : ¬(500 < query.length ∧ results ≠ [] ∧
        (slidingDbResolved (some vs) none g).isSome) := by
      intro hcon
      simpa [slidingDbResolved] using hcon.2.2
    exact if_neg hng

/-- Every match accumulated by the sliding loop keeps the searched query
text in `query_text`. -/
theorem slidingLoop_query_text (align : Str → Str → Option PRAlignment)
    (sq ft : Str) (segs : List Str) (offsets : List Nat)
    (vm : List (QuranVerse × Nat)) (th : ℚ) (mr : Option Nat) :
    ∀ fuel sc rs seen out,
      (∀ m ∈ rs, m.query_text = sq) →
      slidingLoop align sq ft segs offsets vm th mr fuel sc rs seen = Except.ok out →
      ∀ m ∈ out, m.query_text = sq := by
  intro fuel
  induction fuel with
  | zero =>
    intro sc rs seen out h hok
    exact Except.noConfusion hok
  | succ n ih =>
    intro sc rs seen out h hok
    unfold slidingLoop at hok
    split at hok
    · exact (Except.ok.inj hok) ▸ h
    · split at hok
      · exact (Except.ok.inj hok) ▸ h
      next al heq =>
        split at hok
        · exact (Except.ok.inj hok) ▸ h
        next hth =>
          split at hok
          next sv sw ev ew heq1 heq2 =>
            have hext : ∀ m' ∈ rs ++ [mkSlidingMatch sq segs vm al.score
                (wordIdxAt offsets segs.length (sc + al.dest_start))
                (wordIdxAt offsets segs.length (sc + al.dest_end - 1)) sv sw ev ew],
                m'.query_text = sq := by
              intro m' hm'
              rcases List.mem_append.mp hm' with hm' | hm'
              · exact h m' hm'
              · rcases List.mem_singleton.mp hm' with rfl
                rfl
            split at hok
            · exact ih _ _ _ _ h hok
            · split at hok
              · exact (Except.ok.inj hok) ▸ hext
              · exact ih _ _ _ _ hext hok
          · exact absurd hok (by simp)

/-- Every result of the refinement-free sliding search records the searched
query text (stripped and, when requested, normalized). -/
theorem slidingNoRefine_query_text (align : Str → Str → Option PRAlignment)
    (query : Str) (versesOpt : Option (List QuranVerse)) (th : ℚ) (nm : Bool)
    (mr : Option Nat) (dbOpt : Option QuranDatabase) (g : QuranDatabase)
    (fuel : Nat) (out : List MultiAyahMatch)
    (hok : slidingNoRefine align query versesOpt th nm mr dbOpt g fuel =
      Except.ok out) :
    ∀ m ∈ out, m.query_text = searchQueryOf query nm := by
  unfold slidingNoRefine at hok
  split at hok
  · rw [← Except.ok.inj hok]
    intro m hm
    exact absurd hm (List.not_mem_nil m)
  · split at hok
    · exact absurd hok (by simp)
    · split at hok
      · rw [← Except.ok.inj hok]
        intro m hm
        exact absurd hm (List.not_mem_nil m)
      · split at hok
        · rw [← Except.ok.inj hok]
          intro m hm
          exact absurd hm (List.not_mem_nil m)
        · split at hok
          · exact absurd hok (by simp)
          · split at hok
            · rw [← Except.ok.inj hok]
              intro m hm
              exact absurd hm (List.not_mem_nil m)
            · split at hok
              · exact absurd hok (by simp)
              next results heq =>
                rw [← Except.ok.inj hok]
                intro m hm
                exact slidingLoop_query_text align (searchQueryOf query nm) _ _ _ _
                  th mr _ _ _ _ _ (fun m' hm' => absurd hm' (List.not_mem_nil m')) heq
                  m ((mem_sortDescBy _ _ m).mp hm)

/-- C8 (amended): every `FuzzySearchResult` from `fuzzy_search` and every
`MultiAyahMatch` from `search_sliding_window` records in `query_text` the
stripped and (when the flag is set) normalized query actually searched —
not the caller's original query string, which differs from it whenever
stripping or normalization is not the identity on the query. -/
theorem c8_query_text_records_search_query :
    (∀ (tset tsort : Str → Str → ℚ) (db : QuranDatabase) (query : Str)
        (threshold : ℚ) (normalized : Bool) (max_results : Option Nat)
        (rs : List FuzzySearchResult) (r : FuzzySearchResult),
      fuzzy_search tset tsort db query threshold normalized max_results = some rs →
      r ∈ rs → r.query_text = searchQueryOf query normalized) ∧
    (∀ (align : Str → Str → Option PRAlignment) (globalDB : QuranDatabase)
        (query : Str) (threshold : ℚ) (normalized : Bool) (max_results : Option Nat)
        (fuel : Nat) (rs : List MultiAyahMatch) (m : MultiAyahMatch),
      search_sliding_window align globalDB query threshold normalized max_results
        fuel = Except.ok rs →
      m ∈ rs → m.query_text = searchQueryOf query normalized) := by
  constructor
  · intro tset tsort db query threshold normalized max_results rs r hdb hr
    unfold fuzzy_search at hdb
    rcases Option.map_eq_some'.mp hdb with ⟨vs, hvs, rfl⟩
    unfold fuzzy_search_text at hr
    split at hr
    · exact absurd hr (List.not_mem_nil r)
    have hr3 : r ∈ fuzzyResultsOf tset tsort (searchQueryOf query normalized) vs
        threshold normalized := by
      have hr2 : r ∈ sortDescBy (fun r => r.similarity)
          (fuzzyResultsOf tset tsort (searchQueryOf query normalized) vs
            threshold normalized) := by
        split at hr
        · exact List.mem_of_mem_take hr
        · exact hr
      exact ((sortDescBy_perm _ _).mem_iff).mp hr2
    rcases List.mem_filterMap.mp hr3 with ⟨verse, hv, hmap⟩
    rcases Option.map_eq_some'.mp hmap with ⟨m, hm, hrdef⟩
    subst hrdef
    rfl
  · intro align globalDB query threshold normalized max_results fuel rs m hok hm
    cases hg : get_all_verses globalDB with
    | none =>
      unfold search_sliding_window at hok
      rw [hg] at hok
      exact Except.noConfusion hok
    | some vs =>
      rw [search_sliding_window_eq_noRefine align globalDB query threshold normalized
        max_results fuel vs hg] at hok
      exact slidingNoRefine_query_text align query (some vs) threshold normalized
        max_results none globalDB fuel rs hok m hm

set_option maxRecDepth 100000 in
/-- Counterexample to C8 as stated: for the query `" ا"` (leading space) the
single fuzzy result stores `query_text = "ا"` — the stripped, normalized
search string — which is not the original query supplied by the caller. -/
theorem c8_counterexample :
    fuzzy_search tokenSetRatioQ tokenSortRatioQ db1 [' ', alefChar] (7/10) true none =
      some [⟨verse11, 0, 1, 1, [alefChar], [alefChar]⟩] ∧
    (⟨verse11, 0, 1, 1, [alefChar], [alefChar]⟩ : FuzzySearchResult).query_text ≠
      [' ', alefChar] :=
  ⟨by with_unfolding_all decide, by decide⟩

set_option maxRecDepth 100000 in
/-- Witness for the amended C8 at a concrete input: the single result of the
same search indeed records the stripped normalized query. -/
theorem c8_witness :
    fuzzy_search tokenSetRatioQ tokenSortRatioQ db1 [' ', alefChar] (7/10) true none =
      some [⟨verse11, 0, 1, 1, [alefChar], [alefChar]⟩] ∧
    (⟨verse11, 0, 1, 1, [alefChar], [alefChar]⟩ : FuzzySearchResult).query_text =
      searchQueryOf [' ', alefChar] true :=
  ⟨by with_unfolding_all decide,
   c8_query_text_records_search_query.1 tokenSetRatioQ tokenSortRatioQ db1
     [' ', alefChar] (7/10) true none [⟨verse11, 0, 1, 1, [alefChar], [alefChar]⟩]
     ⟨verse11, 0, 1, 1, [alefChar], [alefChar]⟩ (by with_unfolding_all decide)
     (List.mem_singleton.mpr rfl)⟩

/-! Sliding-window deduplication (claim C3). -/

/-- The sliding loop never accumulates two matches with the same
six-coordinate key: every accumulated key is in `seen`, and a key already
in `seen` only advances the cursor. -/
theorem slidingLoop_dedup (align : Str → Str → Option PRAlignment)
    (sq ft : Str) (segs : List Str) (offsets : List Nat)
    (vm : List (QuranVerse × Nat)) (th : ℚ) (mr : Option Nat) :
    ∀ fuel sc rs seen out,
      (rs.map matchKey).Nodup →
      (∀ m ∈ rs, matchKey m ∈ seen) →
      slidingLoop align sq ft segs offsets vm th mr fuel sc rs seen = Except.ok out →
      (out.map matchKey).Nodup := by
  intro fuel
  induction fuel with
  | zero => intro sc rs seen out h1 h2 hok; exact Except.noConfusion hok
  | succ n ih =>
    intro sc rs seen out h1 h2 hok
    unfold slidingLoop at hok
    split at hok
    · exact (Except.ok.inj hok) ▸ h1
    · split at hok
      · exact (Except.ok.inj hok) ▸ h1
      next al heq =>
        split at hok
        · exact (Except.ok.inj hok) ▸ h1
        next hth =>
          split at hok
          next sv sw ev ew heq1 heq2 =>
            split at hok
            · exact ih _ _ _ _ h1 h2 hok
            next hfresh =>
              have hnotin : (sv.surah_number, sv.ayah_number, sw,
                  ev.surah_number, ev.ayah_number, ew + 1) ∉ rs.map matchKey := by
                intro hmem
                rcases List.mem_map.mp hmem with ⟨m0, hm0, hkey0⟩
                exact hfresh (hkey0 ▸ h2 m0 hm0)
              have h1' : ((rs ++ [mkSlidingMatch sq segs vm al.score
                  (wordIdxAt offsets segs.length (sc + al.dest_start))
                  (wordIdxAt offsets segs.length (sc + al.dest_end - 1))
                  sv sw ev ew]).map matchKey).Nodup := by
                rw [List.map_append]
                refine List.Nodup.append h1 (List.nodup_singleton _) ?_
                intro a ha hb
                rcases List.mem_singleton.mp hb with rfl
                exact hnotin ha
              have h2' : ∀ m ∈ rs ++ [mkSlidingMatch sq segs vm al.score
                  (wordIdxAt offsets segs.length (sc + al.dest_start))
                  (wordIdxAt offsets segs.length (sc + al.dest_end - 1))
                  sv sw ev ew], matchKey m ∈
                    ((sv.surah_number, sv.ayah_number, sw,
                      ev.surah_number, ev.ayah_number, ew + 1) :: seen) := by
                intro m hm
                rcases List.mem_append.mp hm with hm | hm
                · exact List.mem_cons_of_mem _ (h2 m hm)
                · rcases List.mem_singleton.mp hm with rfl
                  exact List.mem_cons_self _ _
              split at hok
              · exact (Except.ok.inj hok) ▸ h1'
              · exact ih _ _ _ _ h1' h2' hok
          · exact absurd hok (by simp)

/-- The refinement-free sliding search returns pairwise distinct
six-coordinate keys. -/
theorem slidingNoRefine_dedup (align : Str → Str → Option PRAlignment)
    (query : Str) (versesOpt : Option (List QuranVerse)) (th : ℚ) (nm : Bool)
    (mr : Option Nat) (dbOpt : Option QuranDatabase) (g : QuranDatabase)
    (fuel : Nat) (out : List MultiAyahMatch)
    (hok : slidingNoRefine align query versesOpt th nm mr dbOpt g fuel =
      Except.ok out) :
    (out.map matchKey).Nodup := by
  unfold slidingNoRefine at hok
  split at hok
  · rw [← Except.ok.inj hok]; exact List.nodup_nil
  · split at hok
    · exact Except.noConfusion hok
    · split at hok
      · rw [← Except.ok.inj hok]; exact List.nodup_nil
      · split at hok
        · rw [← Except.ok.inj hok]; exact List.nodup_nil
        · split at hok
          · exact Except.noConfusion hok
          · split at hok
            · rw [← Except.ok.inj hok]; exact List.nodup_nil
            · split at hok
              · exact Except.noConfusion hok
              next results heq =>
                rw [← Except.ok.inj hok]
                have hnd := slidingLoop_dedup align (searchQueryOf query nm) _ _ _ _
                  th mr _ _ _ _ _
                  (by simp : ((([] : List MultiAyahMatch)).map matchKey).Nodup)
                  (fun m hm => absurd hm (List.not_mem_nil m)) heq
                exact (((sortDescBy_perm (fun m => m.similarity) results).map
                  matchKey).nodup_iff).mpr hnd

/-- C3 (amended): within one terminating call of
`sliding_window_multi_ayah_search` that does not take the long-query
refinement branch (the public entry point never does:
`search_sliding_window` passes verses and no database), no two returned
matches share the six-coordinate boundary key.  In general the claim fails:
the refinement branch overwrites the top result with a refined match whose
key is never re-checked and can equal another result's key (see the
counterexample below). -/
theorem c3_sliding_window_dedup (align : Str → Str → Option PRAlignment)
    (query : Str) (versesOpt : Option (List QuranVerse)) (threshold : ℚ)
    (normalized : Bool) (max_results : Option Nat) (dbOpt : Option QuranDatabase)
    (globalDB : QuranDatabase) (fuel : Nat) (rs : List MultiAyahMatch)
    (hscope : query.length ≤ 500 ∨ slidingDbResolved versesOpt dbOpt globalDB = none)
    (hok : sliding_window_multi_ayah_search align query versesOpt threshold
      normalized max_results dbOpt globalDB fuel = Except.ok rs) :
    (rs.map matchKey).Nodup := by
  unfold sliding_window_multi_ayah_search at hok
  split at hok
  · exact Except.noConfusion hok
  next results heq =>
    rw [if_neg] at hok
    · exact (Except.ok.inj hok) ▸ slidingNoRefine_dedup align query versesOpt
        threshold normalized max_results dbOpt globalDB fuel results heq
    · intro hcon
      rcases hscope with hle | hdb
      · omega
      · rw [hdb] at hcon
        exact absurd hcon.2.2 (by simp)

/-- A concrete alignment scorer driving the sliding loop to two distinct
matches on the three-verse database. -/
def alignTwoHits : Str → Str → Option PRAlignment := fun _ sub =>
  if sub.length = 5 then some ⟨90, 0, 1⟩
  else if sub.length = 4 then some ⟨85, 1, 3⟩
  else none

set_option maxRecDepth 100000 in
/-- Witness for C3 at a concrete input: a scorer that produces two matches
on the three-verse database, whose six-coordinate keys are distinct. -/
theorem c3_witness :
    (([alefChar] : Str).length ≤ 500 ∨
      slidingDbResolved (some [verse11, verse12, verse13]) none db3 = none) ∧
    sliding_window_multi_ayah_search alignTwoHits [alefChar]
      (some [verse11, verse12, verse13]) 80 false none none db3 10 =
      Except.ok [⟨[verse11], 90, [alefChar], [alefChar], 1, 1, 0, 1, 1, 1⟩,
                 ⟨[verse12], 85, [baChar], [alefChar], 1, 2, 0, 1, 2, 1⟩] ∧
    (([⟨[verse11], 90, [alefChar], [alefChar], 1, 1, 0, 1, 1, 1⟩,
       ⟨[verse12], 85, [baChar], [alefChar], 1, 2, 0, 1, 2, 1⟩] :
        List MultiAyahMatch).map matchKey).Nodup :=
  ⟨Or.inl (by decide), by with_unfolding_all rfl,
   c3_sliding_window_dedup alignTwoHits [alefChar] (some [verse11, verse12, verse13])
     80 false none none db3 10 _ (Or.inl (by decide))
     (by with_unfolding_all rfl)⟩

/-! Long-query boundary refinement (claim C1). -/

/-- C1 (corrected): boundary refinement belongs to
`sliding_window_multi_ayah_search` and runs only when a database is
resolved there; the public `search_sliding_window` passes verses and no
database, so it never refines.  When `refine_sliding_window_result` does
run it returns either the original match unchanged, or a match keeping the
original similarity and query text whose (surah, ayah) boundaries only
shrink: the refined start is not earlier and the refined end not later. -/
theorem c1_refinement_shrink_and_public_no_refine :
    (∀ (align : Str → Str → Option PRAlignment) (query : Str)
        (best : MultiAyahMatch) (threshold : ℚ) (normalized : Bool)
        (dbOpt : Option QuranDatabase) (globalDB : QuranDatabase) (fuel : Nat),
      refine_sliding_window_result align query best threshold normalized dbOpt
        globalDB fuel = best ∨
      ((refine_sliding_window_result align query best threshold normalized dbOpt
          globalDB fuel).similarity = best.similarity ∧
       (refine_sliding_window_result align query best threshold normalized dbOpt
          globalDB fuel).query_text = best.query_text ∧
       ayahLE (best.start_surah, best.start_ayah)
         ((refine_sliding_window_result align query best threshold normalized dbOpt
            globalDB fuel).start_surah,
          (refine_sliding_window_result align query best threshold normalized dbOpt
            globalDB fuel).start_ayah) ∧
       ayahLE ((refine_sliding_window_result align query best threshold normalized
            dbOpt globalDB fuel).end_surah,
          (refine_sliding_window_result align query best threshold normalized dbOpt
            globalDB fuel).end_ayah)
         (best.end_surah, best.end_ayah))) ∧
    (∀ (align : Str → Str → Option PRAlignment) (globalDB : QuranDatabase)
        (query : Str) (threshold : ℚ) (normalized : Bool)
        (max_results : Option Nat) (fuel : Nat) (vs : List QuranVerse),
      get_all_verses globalDB = some vs →
      search_sliding_window align globalDB query threshold normalized max_results
        fuel =
      slidingNoRefine align query (some vs) threshold normalized max_results none
        globalDB fuel) := by
  constructor
  · intro align query best threshold normalized dbOpt globalDB fuel
    unfold refine_sliding_window_result
    split
    · exact Or.inl rfl
    split
    · exact Or.inl rfl
    split
    · exact Or.inl rfl
    split
    next start_idx end_idx =>
      split
      next rs0 rest1 re0 rest2 =>
        split
        next hvalid =>
          split
          · exact Or.inl rfl
          next rv hrv =>
            right
            refine ⟨rfl, rfl, ?_, ?_⟩
            · unfold ayahLE
              dsimp only
              omega
            · unfold ayahLE
              dsimp only
              omega
        next hinvalid => exact Or.inl rfl
      next => exact Or.inl rfl
    next => exact Or.inl rfl
  · exact fun align g q th nm mr fuel vs hvs =>
      search_sliding_window_eq_noRefine align g q th nm mr fuel vs hvs

/-- A query of 501 identical characters, exceeding the 500-character
refinement threshold. -/
def q501 : Str := List.replicate 501 alefChar

/-- An alignment scorer that matches the whole three-verse corpus for the
full 501-character query and only the middle verse for the 30-character
refinement probes. -/
def alignRefineProbe : Str → Str → Option PRAlignment := fun sq sub =>
  if sq.length = 501 then (if sub.length = 5 then some ⟨90, 0, 5⟩ else none)
  else if sq.length = 30 then (if sub.length = 5 then some ⟨85, 2, 3⟩ else none)
  else none

set_option maxRecDepth 1000000 in
/-- Counterexample to C1 as stated: on a 501-character query the public
`search_sliding_window` returns the whole-corpus top match untouched, even
though running the refinement on that match (as the spec describes) would
shrink its boundaries to the middle verse.  The refinement never runs on
the public path because `search_sliding_window` supplies verses but no
database. -/
theorem c1_counterexample :
    search_sliding_window alignRefineProbe db3 q501 80 false none 10 =
      Except.ok [⟨[verse11, verse12, verse13], 90,
        [alefChar, ' ', baChar, ' ', jeemChar], q501, 1, 1, 0, 1, 3, 1⟩] ∧
    refine_sliding_window_result alignRefineProbe q501
      ⟨[verse11, verse12, verse13], 90, [alefChar, ' ', baChar, ' ', jeemChar],
        q501, 1, 1, 0, 1, 3, 1⟩ 80 false (some db3) db3 10 =
      ⟨[verse12], 90, [baChar], q501, 1, 2, 0, 1, 2, 1⟩ ∧
    (⟨[verse12], 90, [baChar], q501, 1, 2, 0, 1, 2, 1⟩ : MultiAyahMatch) ≠
      ⟨[verse11, verse12, verse13], 90, [alefChar, ' ', baChar, ' ', jeemChar],
        q501, 1, 1, 0, 1, 3, 1⟩ :=
  ⟨by with_unfolding_all rfl, by with_unfolding_all rfl, by decide⟩

/-- Witness for C1 at a concrete database: with all verses of `db3`, the
public wrapper equals the refinement-free search (at the same arguments). -/
theorem c1_witness :
    get_all_verses db3 = some [verse11, verse12, verse13] ∧
    search_sliding_window alignRefineProbe db3 q501 80 false none 10 =
    slidingNoRefine alignRefineProbe q501 (some [verse11, verse12, verse13]) 80
      false none none db3 10 :=
  ⟨by decide,
   c1_refinement_shrink_and_public_no_refine.2 alignRefineProbe db3 q501 80 false
     none 10 [verse11, verse12, verse13] (by decide)⟩

/-- An alignment scorer driving the full sliding search into a duplicated
boundary key: on the 501-character query it first matches the first word
only, then (from the following space) the whole corpus; on the 30-character
refinement probes it matches the first word only. -/
def alignDupKey : Str → Str → Option PRAlignment := fun sq sub =>
  if sq.length = 501 then
    (if sub.length = 5 then some ⟨85, 0, 1⟩
     else if sub.length = 4 then some ⟨90, 0, 4⟩
     else none)
  else if sq.length = 30 then (if sub.length = 5 then some ⟨85, 0, 1⟩ else none)
  else none

set_option maxRecDepth 1000000 in
/-- Counterexample to C3 as stated: with a database resolved and a
501-character query, the loop emits the spans (1,1,0)-(1,1,1) and
(1,1,0)-(1,3,1); after sorting, refinement overwrites the whole-corpus top
match with a refined match on verse 1:1 whose key is never checked against
`seen_ranges` — the returned list contains two matches with the identical
six-coordinate key (1,1,0,1,1,1). -/
theorem c3_counterexample :
    sliding_window_multi_ayah_search alignDupKey q501
      (some [verse11, verse12, verse13]) 80 false none (some db3) db3 10 =
      Except.ok [⟨[verse11], 90, [alefChar], q501, 1, 1, 0, 1, 1, 1⟩,
                 ⟨[verse11], 85, [alefChar], q501, 1, 1, 0, 1, 1, 1⟩] ∧
    matchKey (⟨[verse11], 90, [alefChar], q501, 1, 1, 0, 1, 1, 1⟩ : MultiAyahMatch) =
      matchKey (⟨[verse11], 85, [alefChar], q501, 1, 1, 0, 1, 1, 1⟩ : MultiAyahMatch) :=
  ⟨by with_unfolding_all rfl, rfl⟩
